import Mathlib

/-!
Verification of the `cargar-pagos` repository.

Strings are modelled as `List Char` (`Str`); monetary amounts as `ℚ`
(Python floats on currency values with at most two decimals); sheet cells
as strings, which is what `gspread.get_all_values` returns.  Each
definition is a shallow embedding of the Python function of the same
(translated) name; the source file is cited next to each definition.
-/

set_option maxRecDepth 10000

set_option allowUnsafeReducibility true

attribute [local semireducible] Rat.add Rat.mul Rat.sub Rat.inv Rat.div Rat.ofScientific

abbrev Str := List Char

/-- Coercion boundary from Lean string literals to the `List Char` model. -/
def str (s : String) : Str := s.data

/-- Python `str.split(sep)` for a one-character separator: always returns
at least one (possibly empty) part. -/
def splitOnC (c : Char) : Str → List Str
  | [] => [[]]
  | a :: l =>
    if a = c then [] :: splitOnC c l
    else
      match splitOnC c l with
      | [] => [[a]]
      | h :: t => (a :: h) :: t

/-- `splitOnC` never returns an empty list of parts. -/
theorem splitOnC_ne_nil (c : Char) (l : Str) : splitOnC c l ≠ [] := by
  induction l with
  | nil => simp [splitOnC]
  | cons a l ih =>
    simp only [splitOnC]
    split
    · simp
    · split
      · simp
      · simp

/-- Whitespace in the sense of Python `str.strip()` (common ASCII cases). -/
def isWS (c : Char) : Bool := c.isWhitespace

/-- Python `str.strip()`. -/
def stripL (l : Str) : Str :=
  ((l.dropWhile isWS).reverse.dropWhile isWS).reverse

/-- `str.lower()` restricted to ASCII, which is all the pipeline feeds it. -/
def lowerL (l : Str) : Str := l.map Char.toLower

/-- One step of `unicodedata.normalize("NFD", ·)` followed by
`.encode("ascii","ignore")`: an accented Latin letter decomposes into its
base letter plus a combining mark and the mark is dropped; a plain ASCII
character is kept; any other non-ASCII character is dropped entirely.
Only the accented characters that can actually reach this code (Spanish
sheet text) are tabulated. -/
def asciiFold (c : Char) : Option Char :=
  if c.toNat < 128 then some c
  else if c = 'á' then some 'a'
  else if c = 'é' then some 'e'
  else if c = 'í' then some 'i'
  else if c = 'ó' then some 'o'
  else if c = 'ú' then some 'u'
  else if c = 'ü' then some 'u'
  else if c = 'ñ' then some 'n'
  else if c = 'Á' then some 'A'
  else if c = 'É' then some 'E'
  else if c = 'Í' then some 'I'
  else if c = 'Ó' then some 'O'
  else if c = 'Ú' then some 'U'
  else if c = 'Ü' then some 'U'
  else if c = 'Ñ' then some 'N'
  else none

/-- `src/utils/text.py` `normalize`: NFD + ascii-ignore, lowercase, then
remove every space, hyphen and underscore, and strip. -/
def normalizeTxt (l : Str) : Str :=
  stripL (((l.filterMap asciiFold).map Char.toLower).filter
    (fun c => ¬ (c = ' ' ∨ c = '-' ∨ c = '_')))

/-- `src/utils/text.py` `normalize_canal`: NFD + ascii-ignore, lowercase,
then keep only `[a-z0-9]`. -/
def normalizeCanal (l : Str) : Str :=
  ((l.filterMap asciiFold).map Char.toLower).filter
    (fun c => ('a' ≤ c ∧ c ≤ 'z') ∨ c.isDigit)

/-- `list.startsWith`-style check used to implement substring search. -/
def startsWithL : Str → Str → Bool
  | _, [] => true
  | [], _ :: _ => false
  | a :: l, b :: m => a = b && startsWithL l m

/-- Python `needle in hay` substring containment. -/
def containsSubL (hay needle : Str) : Bool :=
  if startsWithL hay needle then true
  else
    match hay with
    | [] => false
    | _ :: t => containsSubL t needle

/-- `src/utils/text.py` `contiene_pago_facil`. -/
def contienePagoFacil (l : Str) : Bool :=
  containsSubL (normalizeCanal l) (str "pagofacil")

/-- `src/utils/text.py` `contiene_rapipago`. -/
def contieneRapipago (l : Str) : Bool :=
  containsSubL (normalizeCanal l) (str "rapipago")

/-- `src/utils/text.py` `es_banco_comafi`. -/
def esBancoComafi (l : Str) : Bool :=
  containsSubL (normalizeCanal l) (str "bancocomafi") ||
    containsSubL (normalizeCanal l) (str "comafi")

/-- The character filter of the amount parsers: keep digits, `.` and `,`. -/
def keepMonto (c : Char) : Bool := c.isDigit || c = '.' || c = ','

/-- The last `,`-or-`.` character of the string, scanning left to right and
remembering the most recent hit.  When both separators occur in `l`,
`lastSep l = some ','` is exactly Python's `s.rfind(",") > s.rfind(".")`. -/
def lastSep : Str → Option Char
  | [] => none
  | a :: l =>
    match lastSep l with
    | some c => some c
    | none => if a = ',' ∨ a = '.' then some a else none

/-- Numeric value of a digit string (most significant first). -/
def natVal (l : Str) : ℕ := l.foldl (fun n c => 10 * n + (c.toNat - '0'.toNat)) 0

/-- Python `float(s)` on the strings this module can produce: they contain
only digits and dots.  A string with exactly one optional dot and at least
one digit parses to its decimal value; anything else raises `ValueError`,
which every caller turns into `0.0`. -/
def floatPy (l : Str) : ℚ :=
  match splitOnC '.' l with
  | [a] => if a ≠ [] ∧ a.all Char.isDigit then (natVal a : ℚ) else 0
  | [a, b] =>
    if (a ++ b) ≠ [] ∧ (a ++ b).all Char.isDigit then
      (natVal a : ℚ) + (natVal b : ℚ) / 10 ^ b.length
    else 0
  | _ => 0

/-- `src/utils/text.py` `extraer_solo_numeros_crudos`: keep digits and
separators from the raw text; if both separators occur and the dot is
rightmost (American format), swap dots and commas. -/
def extraerSoloNumerosCrudos (l : Str) : Str :=
  let s := l.filter keepMonto
  if s.contains ',' ∧ s.contains '.' ∧ lastSep s = some '.' then
    s.map (fun c => if c = '.' then ',' else if c = ',' then '.' else c)
  else s

/-- Drop the last comma and everything after it (`s[:s.rfind(",")]`);
leave the string unchanged when it has no comma. -/
def beforeLastComma (l : Str) : Str :=
  let r := l.reverse.dropWhile (fun c => c ≠ ',')
  if r = [] then l else (r.drop 1).reverse

/-- `src/utils/text.py` `limpiar_monto_sin_decimales`. -/
def limpiarMontoSinDecimales (l : Str) : Str :=
  (beforeLastComma (extraerSoloNumerosCrudos l)).filter (fun c => c ≠ '.')

/-- `src/utils/text.py` `parsear_monto_float` on a string argument (the
`None` case of the Python function is handled by the callers' `getD`). -/
def parsearMontoFloat (l : Str) : ℚ :=
  let s := (stripL l).filter keepMonto
  if s = [] then 0
  else if s.contains ',' ∧ s.contains '.' then
    -- both present: the rightmost separator is the decimal point
    if lastSep s = some ',' then
      floatPy ((s.filter (fun c => c ≠ '.')).map (fun c => if c = ',' then '.' else c))
    else
      floatPy (s.filter (fun c => c ≠ ','))
  else if s.contains ',' then
    match splitOnC ',' s with
    | [_, frac] =>
      if frac.length ≤ 2 then
        floatPy (s.map (fun c => if c = ',' then '.' else c))
      else floatPy (s.filter (fun c => c ≠ ','))
    | _ => floatPy (s.filter (fun c => c ≠ ','))
  else if s.contains '.' then
    match splitOnC '.' s with
    | [_, frac] =>
      if frac.length = 3 then floatPy (s.filter (fun c => c ≠ '.'))
      else if 4 ≤ frac.length then floatPy (s.filter (fun c => c ≠ '.'))
      else floatPy s
    | parts => if 2 < parts.length then floatPy (s.filter (fun c => c ≠ '.')) else floatPy s
  else floatPy s

example : parsearMontoFloat (str "90.000,50") = 90000.50 := by decide
example : parsearMontoFloat (str "120000") = 120000 := by decide
example : parsearMontoFloat (str "1.234") = 1234 := by decide
example : parsearMontoFloat (str "1,5") = 1.5 := by decide
example : parsearMontoFloat (str "$ 12.345,6") = 12345.6 := by decide
example : parsearMontoFloat (str "abc") = 0 := by decide
example : limpiarMontoSinDecimales (str "90.000,50") = str "90000" := by decide

/-! ### `src/utils/config.py` -/

/-- `MESES_ES`. -/
def MESES_ES : List Str :=
  [str "Enero", str "Febrero", str "Marzo", str "Abril", str "Mayo", str "Junio",
   str "Julio", str "Agosto", str "Septiembre", str "Octubre", str "Noviembre",
   str "Diciembre"]

/-- `MESES_ABREV`. -/
def MESES_ABREV : List Str :=
  [str "ene", str "feb", str "mar", str "abr", str "may", str "jun",
   str "jul", str "ago", str "sep", str "oct", str "nov", str "dic"]

/-! ### Python primitives used by the parsers -/

/-- Decimal digits of a natural number, most significant first (`str(n)`). -/
def natDigitsAux : ℕ → ℕ → Str
  | 0, _ => []
  | fuel + 1, n =>
    if n < 10 then [Char.ofNat ('0'.toNat + n)]
    else natDigitsAux fuel (n / 10) ++ [Char.ofNat ('0'.toNat + n % 10)]

/-- `str(n)` for a natural number. -/
def natDigits (n : ℕ) : Str := natDigitsAux (n + 1) n

/-- Digit-string validity for Python `int(...)`: non-empty, digits with
single underscores strictly between digits. -/
def pyDigitsOk (l : Str) : Bool :=
  (!l.isEmpty) && l.all (fun c => c.isDigit || c = '_') &&
    (match l.head? with | some c => c.isDigit | none => false) &&
    (match l.getLast? with | some c => c.isDigit | none => false) &&
    !containsSubL l (str "__")

/-- Python `int(s)`: strip, optional sign, digit run (ASCII forms).
`none` models the `ValueError` every caller catches. -/
def intPy (l : Str) : Option ℤ :=
  let t := stripL l
  match t with
  | '+' :: r => if pyDigitsOk r then some (natVal (r.filter Char.isDigit)) else none
  | '-' :: r => if pyDigitsOk r then some (-(natVal (r.filter Char.isDigit) : ℤ)) else none
  | r => if pyDigitsOk r then some (natVal (r.filter Char.isDigit)) else none

/-- Python `round()` on an exact rational: round half to even. -/
def pythonRound (q : ℚ) : ℤ :=
  let f := ⌊q⌋
  let r := q - f
  if r < 1/2 then f
  else if 1/2 < r then f + 1
  else if 2 ∣ f then f else f + 1

/-- Python `int()` on a number: truncation toward zero. -/
def truncPy (q : ℚ) : ℤ := if q < 0 then -⌊-q⌋ else ⌊q⌋

/-! ### Gregorian calendar helpers (Python `datetime.date`) -/

/-- Gregorian leap year. -/
def isLeap (y : ℕ) : Bool := y % 4 = 0 ∧ (y % 100 ≠ 0 ∨ y % 400 = 0)

/-- Days in month `m` (1-based) of year `y`. -/
def daysInMonth (y m : ℕ) : ℕ :=
  if m = 2 then (if isLeap y then 29 else 28)
  else if m = 4 ∨ m = 6 ∨ m = 9 ∨ m = 11 then 30
  else 31

/-! ### `src/utils/parsers.py` -/

/-- `nombre_hoja_mes`: `"{MonthNameEs} {YY}"`. -/
def nombreHojaMes (mesIdx anio : ℕ) : Str :=
  let anioCorto := (natDigits anio).drop ((natDigits anio).length - 2)
  MESES_ES.getD mesIdx [] ++ [' '] ++ anioCorto

/-- `str(dia).zfill(2)`. -/
def zfill2 (l : Str) : Str := if l.length < 2 then List.replicate (2 - l.length) '0' ++ l else l

/-- `formato_fecha_corta`: `"DD-mmm"`. -/
def formatoFechaCorta (dia mesIdx : ℕ) : Str :=
  zfill2 (natDigits dia) ++ ['-'] ++ MESES_ABREV.getD mesIdx []

/-- `parsear_dia_mes_texto`: parse `"DD-mmm"` into `(dia, mesIdx)`. -/
def parsearDiaMesTexto (l : Str) : Option (ℕ × ℕ) :=
  let t := lowerL (stripL l)
  match splitOnC '-' t with
  | [p0, p1] =>
    match intPy p0 with
    | none => none
    | some dia =>
      let mesTxt := stripL p1
      let mesTxt := if mesTxt = str "sept" then str "sep" else mesTxt
      match (MESES_ABREV.indexOf? mesTxt) with
      | some mesIdx => if 1 ≤ dia ∧ dia ≤ 31 then some (dia.toNat, mesIdx) else none
      | none => none
  | _ => none

/-- The honorarium marker `re.search(r"\b[a-z]*h\b", s, re.IGNORECASE)`:
the pattern spans from one word boundary to another, so it matches exactly
when some maximal run of word characters consists solely of ASCII letters
and ends in `h`/`H` (ASCII text assumed throughout). -/
def isWordChar (c : Char) : Bool := c.isAlphanum || c = '_'

/-- Maximal word-character runs of the text (helper for the marker). -/
def wordTokensGo (cur : Str) : Str → List Str
  | [] => if cur = [] then [] else [cur.reverse]
  | c :: rest =>
    if isWordChar c then wordTokensGo (c :: cur) rest
    else if cur = [] then wordTokensGo [] rest
    else cur.reverse :: wordTokensGo [] rest

/-- Maximal word-character runs of the text. -/
def wordTokens (l : Str) : List Str := wordTokensGo [] l

/-- `re.search(r"\b[a-z]*h\b", s, re.IGNORECASE) is not None`. -/
def hasMarcaHonorario (l : Str) : Bool :=
  (wordTokens l).any (fun t =>
    t.all Char.isAlpha ∧ (t.getLast? = some 'h' ∨ t.getLast? = some 'H'))

/-- `re.match(r"^\s*(\d{6,12})\b", s)`: after leading whitespace, a 6-12
digit maximal run followed by a word boundary (the greedy `\d{6,12}` must
exhaust the digit run, otherwise the next character is a digit and `\b`
fails). -/
def leadingDni (l : Str) : Option Str :=
  let rest := l.dropWhile isWS
  let d := rest.takeWhile Char.isDigit
  if 6 ≤ d.length ∧ d.length ≤ 12 then
    match rest.drop d.length with
    | [] => some d
    | c :: _ => if isWordChar c then none else some d
  else none

/-- Single pass for `searchDni`: `cur` is the current maximal digit run,
reversed.  When a run ends (or the text does) with at least six digits, the
match is its first twelve digits; shorter runs are discarded. -/
def searchDniAux (cur : Str) : Str → Option Str
  | [] => if 6 ≤ cur.length then some (cur.reverse.take 12) else none
  | c :: rest =>
    if c.isDigit then searchDniAux (c :: cur) rest
    else if 6 ≤ cur.length then some (cur.reverse.take 12)
    else searchDniAux [] rest

/-- `re.search(r"(\d{6,12})", s)`: the leftmost position where at least six
digits start is the start of the first maximal digit run of length ≥ 6, and
the greedy group takes at most twelve of them. -/
def searchDni (l : Str) : Option Str := searchDniAux [] l

/-- `extraer_dni_desde_archivo`. -/
def extraerDniDesdeArchivo (l : Str) : Str :=
  if l = [] then []
  else
    let s := stripL l
    if hasMarcaHonorario s then []
    else
      match leadingDni s with
      | some d => d
      | none => match searchDni s with
        | some d => d
        | none => []

/-- `extraer_dni_honorario`, i.e. `re.match(r"^\s*(\d{6,12})\s*[hH]\b", s)`
on the stripped text: the greedy digit group must exhaust the maximal digit
run (otherwise `\s*[hH]` faces a digit), so it matches exactly a 6-12 digit
run, optional whitespace, `h`/`H`, then a word boundary. -/
def extraerDniHonorario (l : Str) : Str :=
  if l = [] then []
  else
    let s := stripL l
    let rest := s.dropWhile isWS
    let d := rest.takeWhile Char.isDigit
    if 6 ≤ d.length ∧ d.length ≤ 12 then
      match (rest.drop d.length).dropWhile isWS with
      | c :: rest2 =>
        if c = 'h' ∨ c = 'H' then
          match rest2 with
          | [] => d
          | c2 :: _ => if isWordChar c2 then [] else d
        else []
      | [] => []
    else []

example : extraerDniDesdeArchivo (str "12345678 h receipt.pdf") = [] := by decide
example : extraerDniHonorario (str "12345678 h receipt.pdf") = str "12345678" := by decide
example : extraerDniDesdeArchivo (str "1234567h") = str "1234567" := by decide
example : extraerDniDesdeArchivo (str "foo 20240101 bar") = str "20240101" := by decide
example : parsearDiaMesTexto (str "07-feb") = some (7, 1) := by decide
example : formatoFechaCorta 7 1 = str "07-feb" := by decide
example : nombreHojaMes 1 2026 = str "Febrero 26" := by decide

/-! ### Proleptic Gregorian dates (Python `datetime.date`), as ordinals -/

/-- Days from 0001-01-01 to the start of year `y` (`date.toordinal` basis). -/
def daysBeforeYear (y : ℕ) : ℕ :=
  365 * (y - 1) + (y - 1) / 4 - (y - 1) / 100 + (y - 1) / 400

/-- Days of year `y` before month `m` (1-based). -/
def daysBeforeMonth (y m : ℕ) : ℕ :=
  (((List.range (m - 1)).map (fun i => daysInMonth y (i + 1))).sum)

/-- `date(y, m, d).toordinal()`. -/
def toOrdinal (y m d : ℕ) : ℕ := daysBeforeYear y + daysBeforeMonth y m + d

/-- A Python `datetime.date`: the stored year, 1-based month and day. -/
structure DateYMD where
  anio : ℕ
  mes : ℕ
  dia : ℕ
deriving DecidableEq, Repr

/-- `date.weekday()`: 0 = Monday; ordinal 1 (0001-01-01) is a Monday. -/
def weekdayYMD (dt : DateYMD) : ℕ := (toOrdinal dt.anio dt.mes dt.dia - 1) % 7

/-- Pad a digit string to four characters (`date.isoformat` year field). -/
def zfill4 (l : Str) : Str := if l.length < 4 then List.replicate (4 - l.length) '0' ++ l else l

/-- `date.isoformat()`: `YYYY-MM-DD`. -/
def isoYMD (dt : DateYMD) : Str :=
  zfill4 (natDigits dt.anio) ++ ['-'] ++ zfill2 (natDigits dt.mes) ++ ['-'] ++
    zfill2 (natDigits dt.dia)

/-- `d + timedelta(days=1)` on a calendar date: day rollover into the next
month and year. -/
def nextDayYMD (dt : DateYMD) : DateYMD :=
  if dt.dia < daysInMonth dt.anio dt.mes then ⟨dt.anio, dt.mes, dt.dia + 1⟩
  else if dt.mes < 12 then ⟨dt.anio, dt.mes + 1, 1⟩
  else ⟨dt.anio + 1, 1, 1⟩

example : weekdayYMD ⟨2026, 1, 10⟩ = 5 := by decide
example : isoYMD ⟨2026, 1, 10⟩ = str "2026-01-10" := by decide
example : nextDayYMD ⟨2025, 12, 31⟩ = ⟨2026, 1, 1⟩ := by decide

/-! ### `src/calendar_ar.py` -/

/-- `FERIADOS_FALLBACK[year]` (`.get(year, [])`). -/
def feriadosFallback (year : ℕ) : List Str :=
  if year = 2024 then
    [str "2024-01-01", str "2024-02-12", str "2024-02-13", str "2024-03-24",
     str "2024-03-29", str "2024-04-02", str "2024-05-01", str "2024-05-25",
     str "2024-06-17", str "2024-06-20", str "2024-07-09", str "2024-08-17",
     str "2024-10-12", str "2024-11-18", str "2024-12-08", str "2024-12-25"]
  else if year = 2025 then
    [str "2025-01-01", str "2025-03-03", str "2025-03-04", str "2025-03-24",
     str "2025-04-02", str "2025-04-18", str "2025-05-01", str "2025-05-25",
     str "2025-06-16", str "2025-06-20", str "2025-07-09", str "2025-08-18",
     str "2025-10-13", str "2025-11-24", str "2025-12-08", str "2025-12-25"]
  else if year = 2026 then
    [str "2026-01-01", str "2026-02-16", str "2026-02-17", str "2026-03-24",
     str "2026-04-02", str "2026-04-03", str "2026-05-01", str "2026-05-25",
     str "2026-06-15", str "2026-06-20", str "2026-07-09", str "2026-08-17",
     str "2026-10-12", str "2026-11-23", str "2026-12-08", str "2026-12-25"]
  else []

/-- The outcome of the remote holiday request in `get_feriados`: `some dates`
models an HTTP 200 whose payload parsed into those `"date"` fields; `none`
models every failure the `try/except` absorbs (network error, timeout,
malformed payload) as well as a non-200 status — in all those cases the
remote contribution is the empty set. -/
def remoteFeriados := Option (List Str)

/-- `get_feriados`, with the process-wide `_feriados_cache` passed
explicitly as an association list and the remote request's outcome as a
parameter; returns the result together with the updated cache.  The set of
holidays is modelled as a list read up to membership. -/
def getFeriados (cache : List (ℕ × List Str)) (remote : Option (List Str)) (year : ℕ) :
    List Str × List (ℕ × List Str) :=
  match cache.lookup year with
  | some fs => (fs, cache)
  | none =>
    let fromApi := match remote with
      | some dates => dates
      | none => []
    let feriados := fromApi ++ feriadosFallback year
    (feriados, (year, feriados) :: cache)

/-- `es_dia_habil`, with `get_feriados` abstracted into the per-year
holiday function that the process-wide cache realizes (`d.year` is the
date's stored year). -/
def esDiaHabil (feriados : ℕ → List Str) (dt : DateYMD) : Bool :=
  if 5 ≤ weekdayYMD dt then false
  else ¬ (feriados dt.anio).contains (isoYMD dt)

/-- `proximo_dia_habil`: the `while` loop with explicit fuel; `none` models
a run that has not terminated within `fuel` iterations. -/
def proximoDiaHabilF (feriados : ℕ → List Str) : ℕ → DateYMD → Option DateYMD
  | 0, _ => none
  | fuel + 1, dt =>
    if esDiaHabil feriados dt then some dt
    else proximoDiaHabilF feriados fuel (nextDayYMD dt)

/-- `calcular_dia_habil_del_mes` (`mes` is the 0-based month index).
`date(anio, mes+1, dia)` raises exactly when the triple is not a real
calendar date within years 1..9999, which the `try/except` turns into
`None`.  The snapped date's stored year and month (`fecha.year`,
`fecha.month`) drive the final count. -/
def calcularDiaHabilDelMes (feriados : ℕ → List Str) (fuel : ℕ)
    (dia mes anio : ℕ) : Option ℕ :=
  if 1 ≤ anio ∧ anio ≤ 9999 ∧ mes ≤ 11 ∧ 1 ≤ dia ∧ dia ≤ daysInMonth anio (mes + 1) then
    match proximoDiaHabilF feriados fuel ⟨anio, mes + 1, dia⟩ with
    | none => none
    | some f =>
      let fers := feriados f.anio
      let habiles := ((List.range f.dia).map (· + 1)).countP
        (fun dn => decide (weekdayYMD ⟨f.anio, f.mes, dn⟩ < 5) &&
          !(fers.contains (isoYMD ⟨f.anio, f.mes, dn⟩)))
      if 0 < habiles then some habiles else none
  else none

/-! ### `parsear_fecha_flexible` -/

/-- The result `{dia, mesIdx, anio}` of the date parsers. -/
structure Fecha where
  dia : ℕ
  mesIdx : ℕ
  anio : ℕ
deriving DecidableEq, Repr

/-- Branch 1 of `parsear_fecha_flexible`:
`^(\d{1,2})[/\-\s](\d{1,2})[/\-\s](\d{2,4})(?:[ T].*)?$`.  Each greedy digit
group must exhaust its maximal digit run (whatever it leaves would have to
match a separator or the tail, and a digit matches neither), so the runs'
lengths are constrained directly. -/
def parseDMY (s : Str) : Option Fecha :=
  let d1 := s.takeWhile Char.isDigit
  if 1 ≤ d1.length ∧ d1.length ≤ 2 then
    match s.drop d1.length with
    | c1 :: r1 =>
      if c1 = '/' ∨ c1 = '-' ∨ isWS c1 then
        let d2 := r1.takeWhile Char.isDigit
        if 1 ≤ d2.length ∧ d2.length ≤ 2 then
          match r1.drop d2.length with
          | c2 :: r2 =>
            if c2 = '/' ∨ c2 = '-' ∨ isWS c2 then
              let d3 := r2.takeWhile Char.isDigit
              if 2 ≤ d3.length ∧ d3.length ≤ 4 then
                let tailOk : Bool := match r2.drop d3.length with
                  | [] => true
                  | c3 :: _ => c3 = ' ' || c3 = 'T'
                if tailOk then
                  let dia := natVal d1
                  let mes : ℤ := (natVal d2 : ℤ) - 1
                  let anio := natVal d3
                  let anio := if anio < 100 then anio + 2000 else anio
                  if 1 ≤ dia ∧ dia ≤ 31 ∧ 0 ≤ mes ∧ mes ≤ 11 then
                    some ⟨dia, mes.toNat, anio⟩
                  else none
                else none
              else none
            else none
          | [] => none
        else none
      else none
    | [] => none
  else none

/-- Branch 2 of `parsear_fecha_flexible`:
`^(\d{4})-(\d{1,2})-(\d{1,2})(?:[T\s].*)?$`. -/
def parseISO (s : Str) : Option Fecha :=
  let d1 := s.takeWhile Char.isDigit
  if d1.length = 4 then
    match s.drop 4 with
    | c1 :: r1 =>
      if c1 = '-' then
        let d2 := r1.takeWhile Char.isDigit
        if 1 ≤ d2.length ∧ d2.length ≤ 2 then
          match r1.drop d2.length with
          | c2 :: r2 =>
            if c2 = '-' then
              let d3 := r2.takeWhile Char.isDigit
              if 1 ≤ d3.length ∧ d3.length ≤ 2 then
                let tailOk : Bool := match r2.drop d3.length with
                  | [] => true
                  | c3 :: _ => c3 = 'T' || isWS c3
                if tailOk then
                  let anio := natVal d1
                  let mes : ℤ := (natVal d2 : ℤ) - 1
                  let dia := natVal d3
                  if 1 ≤ dia ∧ dia ≤ 31 ∧ 0 ≤ mes ∧ mes ≤ 11 then
                    some ⟨dia, mes.toNat, anio⟩
                  else none
                else none
              else none
            else none
          | [] => none
        else none
      else none
    | [] => none
  else none

/-- The `datetime.fromisoformat` fallback of `parsear_fecha_flexible`.  The
strings it accepts beyond the two regex branches are the compact
`YYYYMMDD` form (Python ≥ 3.11), modelled here with real calendar
validation; exotic time-suffixed forms that no sheet cell exhibits are
omitted. -/
def parseCompactISO (s : Str) : Option Fecha :=
  if s.length = 8 ∧ s.all Char.isDigit then
    let y := natVal (s.take 4)
    let m := natVal ((s.drop 4).take 2)
    let d := natVal (s.drop 6)
    if 1 ≤ y ∧ y ≤ 9999 ∧ 1 ≤ m ∧ m ≤ 12 ∧ 1 ≤ d ∧ d ≤ daysInMonth y m then
      some ⟨d, m - 1, y⟩
    else none
  else none

/-- `parsear_fecha_flexible` on a cell (always a string or absent; the
`datetime` branch is unreachable because `get_all_values` yields strings).
`nowYear` is `datetime.now().year`, used by the `DD-mmm` branch. -/
def parsearFechaFlexible (nowYear : ℕ) (v : Option Str) : Option Fecha :=
  match v with
  | none => none
  | some raw =>
    let s := stripL raw
    if s = [] then none
    else
      match parseDMY s with
      | some f => some f
      | none =>
        match parseISO s with
        | some f => some f
        | none =>
          match parsearDiaMesTexto s with
          | some (dia, mesIdx) => some ⟨dia, mesIdx, nowYear⟩
          | none => parseCompactISO s

example : parsearFechaFlexible 2026 (some (str "07/02/2026 10:30")) =
    some ⟨7, 1, 2026⟩ := by decide
example : parsearFechaFlexible 2026 (some (str "2026-2-7")) = some ⟨7, 1, 2026⟩ := by decide
example : parsearFechaFlexible 2026 (some (str "07-feb")) = some ⟨7, 1, 2026⟩ := by decide
example : parsearFechaFlexible 2026 (some (str "20260207")) = some ⟨7, 1, 2026⟩ := by decide
example : parsearFechaFlexible 2026 (some (str "7/13/26")) = none := by decide

/-! ### `src/pipelines/cuotas_concepto.py` -/

/-- `str(row[i] if len(row) > i else "").strip()` on a row of string cells. -/
def strGet (row : List Str) (i : ℕ) : Str := stripL (row.getD i [])

/-- `_unique_key`. -/
def uniqueKey (dni cartera : Str) : Str :=
  normalizeTxt dni ++ ['_'] ++ normalizeTxt cartera

/-- `re.search(r"(\d{2,4})", header)`: first maximal digit run of length
at least two, of which the greedy group takes at most four (same scheme as
`searchDniAux`). -/
def yearRunAux (cur : Str) : Str → Option Str
  | [] => if 2 ≤ cur.length then some (cur.reverse.take 4) else none
  | c :: rest =>
    if c.isDigit then yearRunAux (c :: cur) rest
    else if 2 ≤ cur.length then some (cur.reverse.take 4)
    else yearRunAux [] rest

/-- `_parse_mes_anio_header`, inner loop over the enumerated month names:
a month whose normalized name occurs in the normalized header yields a
result only if the header also holds a 2-4 digit year; otherwise the loop
keeps trying later months. -/
def parseMesAnioGo (h hn : Str) : List (ℕ × Str) → Option (ℕ × ℕ)
  | [] => none
  | (i, mes) :: rest =>
    if containsSubL hn (normalizeTxt mes) then
      match yearRunAux [] h with
      | some ds =>
        let a := natVal ds
        some (i, if a < 100 then a + 2000 else a)
      | none => parseMesAnioGo h hn rest
    else parseMesAnioGo h hn rest

/-- `_parse_mes_anio_header`. -/
def parseMesAnioHeader (h : Str) : Option (ℕ × ℕ) :=
  parseMesAnioGo h (normalizeTxt h) MESES_ES.enum

/-- A `pago <mes> <año>` column of `Pro`: position, month, year, and the
chronological key `anio * 12 + mesIdx`. -/
structure PagoCol where
  col : ℕ
  mesIdx : ℕ
  anio : ℕ
  key : ℕ
deriving DecidableEq, Repr

/-- The columns `_get_pago_columns` collects before sorting: headers
containing `"pago"` (lowercased) that parse to a month and year. -/
def pagoColumnsRaw (headerPro : List Str) : List PagoCol :=
  headerPro.enum.filterMap (fun ki =>
    if containsSubL (lowerL ki.2) (str "pago") then
      match parseMesAnioHeader ki.2 with
      | some (mi, a) => some ⟨ki.1, mi, a, a * 12 + mi⟩
      | none => none
    else none)

/-- `_get_pago_columns`: the collected columns sorted by chronological key
with a stable sort (Python's `list.sort(key=...)`). -/
def getPagoColumns (headerPro : List Str) : List PagoCol :=
  (pagoColumnsRaw headerPro).insertionSort (fun a b => a.key ≤ b.key)

/-- `_sumar_historia`: the `break` on the chronologically sorted column
list makes the loop sum exactly the columns with key below the current
month's. -/
def sumarHistoria (rowPro : List Str) (pagoCols : List PagoCol) (keyActual : ℕ) : ℚ :=
  ((pagoCols.takeWhile (fun p => p.key < keyActual)).map
    (fun p => parsearMontoFloat (rowPro.getD p.col []))).sum

/-- `_find_valor_cuota_col`: first header without `pago`/`saldo`/`cobra`
that parses to the current month and year (`-1` becomes `none`). -/
def findValorCuotaCol (headerPro : List Str) (mesIdx anio : ℕ) : Option ℕ :=
  (headerPro.enum.find? (fun ki =>
    let hl := lowerL ki.2
    !(containsSubL hl (str "pago")) && !(containsSubL hl (str "saldo")) &&
      !(containsSubL hl (str "cobra")) &&
      decide (parseMesAnioHeader ki.2 = some (mesIdx, anio)))).map (·.1)

/-- The `Pro` row-lookup map `mapa`: dictionary assignment in row order, so
the last row with a non-empty `dni` and the given key wins. -/
def mapaLookup (dataPro : List (List Str)) (key : Str) : Option ℕ :=
  ((dataPro.enum.filter (fun ir =>
    decide (strGet ir.2 2 ≠ []) &&
      decide (uniqueKey (strGet ir.2 2) (strGet ir.2 9) = key))).getLast?).map (·.1)

/-- `cant_cuotas`: `int(row_pro[7])` with 999 substituted when the cell is
missing, fails `int()`, or is below 1. -/
def cantCuotasOf (rowPro : List Str) : ℤ :=
  let c : ℤ :=
    if 7 < rowPro.length then
      match intPy (rowPro.getD 7 []) with
      | some v => v
      | none => 999
    else 999
  if c < 1 then 999 else c

/-- The decision logic of `ejecutar_cuotas_concepto` on a matched contract
with a positive installment value: `estado` is the running total, `V` the
installment value, `C` the installment count.  Python's `%` on nonnegative
floats is `a - b * floor(a / b)`, and `int()` truncates toward zero. -/
def clasificar (estado V : ℚ) (C : ℤ) : Str × ℤ :=
  if estado ≥ V * C - 50 then (str "Total", C)
  else if estado < V - 50 then (str "Parcial", 1)
  else
    let cociente := estado / V
    let resto := estado - V * ⌊estado / V⌋
    let esExacto := resto < 100 ∨ V - resto < 100
    let cuota := if esExacto then pythonRound cociente else truncPy cociente + 1
    ((if esExacto then str "Cuota" else str "Parcial"),
     if cuota > C then C else cuota)

/-- Fields of a month-sheet row that the accumulator loop reads:
`row[0]` (DNI), `row[3]` (payment), `row[8]` (portfolio). -/
def filaDni (row : List Str) : Str := strGet row 0

/-- Portfolio field of a month-sheet row. -/
def filaCartera (row : List Str) : Str := strGet row 8

/-- Payment amount of a month-sheet row. -/
def filaPago (row : List Str) : ℚ := parsearMontoFloat (row.getD 3 [])

/-- Contract key of a month-sheet row. -/
def filaKey (row : List Str) : Str := uniqueKey (filaDni row) (filaCartera row)

/-- `acumulador.get(key, 0.0)` on the association-list model of the dict. -/
def qget (acum : List (Str × ℚ)) (k : Str) : ℚ :=
  match acum.lookup k with
  | some v => v
  | none => 0

/-- The installment value the loop reads for a key. -/
def valCuotaDe (dataPro : List (List Str)) (colValor : ℕ) (k : Str) : ℚ :=
  parsearMontoFloat ((dataPro.getD ((mapaLookup dataPro k).getD 0) []).getD colValor [])

/-- One iteration of the accumulator loop: the `(concepto, cuota)` written
for this row, whether `actualizadas` grows, and whether the accumulator
entry for this row's key is set (to `acumVal + pago`). -/
def pasoFilaCuotas (dataPro : List (List Str)) (pagoCols : List PagoCol)
    (colValor : ℕ) (keyActual : ℕ) (row : List Str) (acumVal : ℚ) :
    (Str × Option ℤ) × Bool :=
  let dni := filaDni row
  let key := filaKey row
  let pago := filaPago row
  if dni ≠ [] ∧ (mapaLookup dataPro key).isSome then
    let rowPro := dataPro.getD ((mapaLookup dataPro key).getD 0) []
    let cant := cantCuotasOf rowPro
    let valCuota := valCuotaDe dataPro colValor key
    if 0 < valCuota then
      let estado := sumarHistoria rowPro pagoCols keyActual + acumVal + pago
      let r := clasificar estado valCuota cant
      ((r.1, some r.2), true)
    else ((str "Falta Valor", none), false)
  else (((if dni ≠ [] then str "No Match" else []), none), false)

/-- The accumulator loop over the data rows of the month sheet, carrying
the `acumulador` dict; returns the `conceptos` and `cuotas` columns and
`actualizadas`. -/
def cuotasLoop (dataPro : List (List Str)) (pagoCols : List PagoCol)
    (colValor : ℕ) (keyActual : ℕ) (acum : List (Str × ℚ)) :
    List (List Str) → List Str × List (Option ℤ) × ℕ
  | [] => ([], [], 0)
  | row :: rest =>
    let key := filaKey row
    let pago := filaPago row
    let acumVal := qget acum key
    let r := pasoFilaCuotas dataPro pagoCols colValor keyActual row acumVal
    let acum' := if r.2 then (key, acumVal + pago) :: acum else acum
    let rec' := cuotasLoop dataPro pagoCols colValor keyActual acum' rest
    (r.1.1 :: rec'.1, r.1.2 :: rec'.2.1, (if r.2 then 1 else 0) + rec'.2.2)

/-- `ejecutar_cuotas_concepto` up to the batch write: `none` models the
early returns (empty `Pro`, no installment-value column, no data rows),
after which the sheet is left untouched; `some` carries the two columns
written by `actualizar_dos_columnas_mes` and the `actualizadas` count.
`mesIdx`/`anio` stand for `datetime.now()`. -/
def ejecutarCuotasConcepto (mesIdx anio : ℕ) (headerPro : List Str)
    (dataPro : List (List Str)) (dataMes : List (List Str)) :
    Option (List Str × List (Option ℤ) × ℕ) :=
  if dataPro = [] then none
  else
    let keyActual := anio * 12 + mesIdx
    let pagoCols := getPagoColumns headerPro
    match findValorCuotaCol headerPro mesIdx anio with
    | none => none
    | some colValor =>
      if dataMes.length ≤ 1 then none
      else some (cuotasLoop dataPro pagoCols colValor keyActual [] (dataMes.drop 1))

/-- Write `v` at position `n` of a row, padding with empty cells: what
writing one cell of a sheet range does to a short row. -/
def setPad (v : Str) : ℕ → List Str → List Str
  | 0, [] => [v]
  | 0, _ :: t => v :: t
  | n + 1, [] => [] :: setPad v n []
  | n + 1, c :: t => c :: setPad v n t

/-- The string form in which a written installment number is read back
(`USER_ENTERED` integers round-trip through `get_all_values` as digits). -/
def cuotaCell : Option ℤ → Str
  | none => []
  | some z => if z < 0 then '-' :: natDigits (-z).toNat else natDigits z.toNat

/-- `actualizar_dos_columnas_mes`: overwrite columns E (index 4) and G
(index 6) of the data rows with the computed values. -/
def aplicarEscrituraMes (dataMes : List (List Str)) (conceptos : List Str)
    (cuotas : List (Option ℤ)) : List (List Str) :=
  match dataMes with
  | [] => []
  | hdr :: rows =>
    hdr :: rows.zipWith
      (fun row cq => setPad (cuotaCell cq.2) 6 (setPad cq.1 4 row))
      (conceptos.zip cuotas)

/-- One full run of the installment recompute as a sheet transformation:
on an early return the sheet is unchanged. -/
def pasoCuotas (mesIdx anio : ℕ) (headerPro : List Str)
    (dataPro : List (List Str)) (dataMes : List (List Str)) : List (List Str) :=
  match ejecutarCuotasConcepto mesIdx anio headerPro dataPro dataMes with
  | none => dataMes
  | some r => aplicarEscrituraMes dataMes r.1 r.2.1

/-! ### Supporting lemmas for the accumulator claims -/

instance : IsTotal PagoCol (fun a b => a.key ≤ b.key) := ⟨fun a b => Nat.le_total a.key b.key⟩

instance : IsTrans PagoCol (fun a b => a.key ≤ b.key) := ⟨fun _ _ _ => Nat.le_trans⟩

/-- On a key-sorted list, stopping at the first key `≥ K` is the same as
keeping every key `< K`. -/
theorem takeWhile_key_eq_filter (K : ℕ) :
    ∀ l : List PagoCol, l.Sorted (fun a b => a.key ≤ b.key) →
      l.takeWhile (fun p => p.key < K) = l.filter (fun p => p.key < K) := by
  intro l hl
  induction l with
  | nil => rfl
  | cons a l ih =>
    rcases List.sorted_cons.mp hl with ⟨ha, hl'⟩
    by_cases h : a.key < K
    · have hd : decide (a.key < K) = true := by simpa using h
      simp only [List.takeWhile_cons, List.filter_cons, hd, if_true]
      rw [ih hl']
    · have hd : decide (a.key < K) = false := by simpa using h
      simp only [List.takeWhile_cons, List.filter_cons, hd]
      simp only [Bool.false_eq_true, if_false]
      symm
      simp only [List.filter_eq_nil_iff]
      intro p hp
      simp only [decide_eq_true_eq]
      exact fun hpK => h (Nat.lt_of_le_of_lt (ha p hp) hpK)

/-- `_sumar_historia` over the sorted column list equals the sum over all
payment columns of chronological key strictly below the current month. -/
theorem sumarHistoria_eq_historiaSpec (rowPro : List Str) (headerPro : List Str)
    (keyActual : ℕ) :
    sumarHistoria rowPro (getPagoColumns headerPro) keyActual =
      (((pagoColumnsRaw headerPro).filter (fun p => p.key < keyActual)).map
        (fun p => parsearMontoFloat (rowPro.getD p.col []))).sum := by
  unfold sumarHistoria getPagoColumns
  rw [takeWhile_key_eq_filter keyActual _
    (List.sorted_insertionSort (fun a b => a.key ≤ b.key) (pagoColumnsRaw headerPro))]
  exact List.Perm.sum_eq (List.Perm.map _ (List.Perm.filter _
    (List.perm_insertionSort (fun a b => a.key ≤ b.key) (pagoColumnsRaw headerPro))))

/-- Sum of the payment amounts of the rows of a key (rows with a non-empty
identifier), as the claims state it. -/
def prefixPagoSum (rows : List (List Str)) (k : Str) : ℚ :=
  ((rows.filter (fun r => decide (filaDni r ≠ [] ∧ filaKey r = k))).map filaPago).sum

/-- `float()` results are never negative: the parsed strings hold no sign. -/
theorem floatPy_nonneg (l : Str) : 0 ≤ floatPy l := by
  unfold floatPy
  repeat' first
    | positivity
    | exact le_refl 0
    | split

set_option maxHeartbeats 1000000 in
/-- `parsear_monto_float` is nonnegative. -/
theorem parsearMontoFloat_nonneg (l : Str) : 0 ≤ parsearMontoFloat l := by
  unfold parsearMontoFloat
  set s := (stripL l).filter keepMonto with hs
  clear_value s
  dsimp only
  repeat' first
    | exact le_refl 0
    | exact floatPy_nonneg _
    | split

/-- The outcome of one loop step does not depend on the accumulator value
unless the row has an identifier and its contract has a positive
installment value. -/
theorem pasoFilaCuotas_indep (dataPro : List (List Str)) (pagoCols : List PagoCol)
    (colValor keyActual : ℕ) (row : List Str) (a b : ℚ)
    (h : filaDni row = [] ∨
      ¬((mapaLookup dataPro (filaKey row)).isSome ∧
        0 < valCuotaDe dataPro colValor (filaKey row))) :
    pasoFilaCuotas dataPro pagoCols colValor keyActual row a =
      pasoFilaCuotas dataPro pagoCols colValor keyActual row b := by
  unfold pasoFilaCuotas
  rcases h with h | h
  · simp [h]
  · by_cases hd : filaDni row = []
    · simp [hd]
    · by_cases hm : (mapaLookup dataPro (filaKey row)).isSome
      · have hv : ¬ 0 < valCuotaDe dataPro colValor (filaKey row) := fun hv => h ⟨hm, hv⟩
        simp [hd, hv]
      · simp [hd, hm]

/-- The loop updates the accumulator (and `actualizadas`) exactly on rows
with an identifier whose contract matched with positive installment
value. -/
theorem pasoFilaCuotas_snd (dataPro : List (List Str)) (pagoCols : List PagoCol)
    (colValor keyActual : ℕ) (row : List Str) (a : ℚ) :
    (pasoFilaCuotas dataPro pagoCols colValor keyActual row a).2 = true ↔
      (filaDni row ≠ [] ∧ (mapaLookup dataPro (filaKey row)).isSome ∧
        0 < valCuotaDe dataPro colValor (filaKey row)) := by
  unfold pasoFilaCuotas
  by_cases hd : filaDni row = []
  · simp [hd]
  · by_cases hm : (mapaLookup dataPro (filaKey row)).isSome
    · by_cases hv : 0 < valCuotaDe dataPro colValor (filaKey row)
      · simp [hd, hm, hv]
      · simp [hd, hm, hv]
    · simp [hd, hm]

/-- `qget` on a dict after one assignment. -/
theorem qget_cons (k0 : Str) (v : ℚ) (acum : List (Str × ℚ)) (k : Str) :
    qget ((k0, v) :: acum) k = if k = k0 then v else qget acum k := by
  unfold qget
  by_cases h : k = k0
  · simp [List.lookup, h]
  · simp only [List.lookup]
    have : (k == k0) = false := by simpa using h
    simp [this, h]

/-- Unfolding `prefixPagoSum` over a leading row. -/
theorem prefixPagoSum_cons (r : List Str) (rows : List (List Str)) (k : Str) :
    prefixPagoSum (r :: rows) k =
      (if filaDni r ≠ [] ∧ filaKey r = k then filaPago r else 0) +
        prefixPagoSum rows k := by
  unfold prefixPagoSum
  rw [List.filter_cons]
  by_cases h : filaDni r ≠ [] ∧ filaKey r = k
  · have : decide (filaDni r ≠ [] ∧ filaKey r = k) = true := by simpa using h
    simp [this, h]
  · have : decide (filaDni r ≠ [] ∧ filaKey r = k) = false := by simpa using h
    simp [this, h]

/-- `prefixPagoSum` of no rows. -/
theorem prefixPagoSum_nil (k : Str) : prefixPagoSum [] k = 0 := rfl

/-- One unfolding of the accumulator loop. -/
theorem cuotasLoop_cons (dataPro : List (List Str)) (pagoCols : List PagoCol)
    (colValor keyActual : ℕ) (acum : List (Str × ℚ)) (row : List Str)
    (rest : List (List Str)) :
    cuotasLoop dataPro pagoCols colValor keyActual acum (row :: rest) =
      (let r := pasoFilaCuotas dataPro pagoCols colValor keyActual row
        (qget acum (filaKey row))
       let acum' := if r.2 then (filaKey row, qget acum (filaKey row) + filaPago row) :: acum
         else acum
       let rec' := cuotasLoop dataPro pagoCols colValor keyActual acum' rest
       (r.1.1 :: rec'.1, r.1.2 :: rec'.2.1, (if r.2 then 1 else 0) + rec'.2.2)) := rfl

/-- The two output columns of the loop, row by row: row `i` is classified
against the accumulated amount `base` of the initial dict plus the payments
of the earlier same-key rows with a non-empty identifier. -/
theorem cuotasLoop_get (dataPro : List (List Str)) (pagoCols : List PagoCol)
    (colValor keyActual : ℕ) :
    ∀ (rows : List (List Str)) (acum : List (Str × ℚ)) (base : Str → ℚ),
      (∀ k, qget acum k =
        if (mapaLookup dataPro k).isSome ∧ 0 < valCuotaDe dataPro colValor k
        then base k else 0) →
      ∀ i, i < rows.length →
        (cuotasLoop dataPro pagoCols colValor keyActual acum rows).1.get? i =
          some (pasoFilaCuotas dataPro pagoCols colValor keyActual (rows.getD i [])
            (base (filaKey (rows.getD i [])) +
              prefixPagoSum (rows.take i) (filaKey (rows.getD i [])))).1.1 ∧
        (cuotasLoop dataPro pagoCols colValor keyActual acum rows).2.1.get? i =
          some (pasoFilaCuotas dataPro pagoCols colValor keyActual (rows.getD i [])
            (base (filaKey (rows.getD i [])) +
              prefixPagoSum (rows.take i) (filaKey (rows.getD i [])))).1.2 := by
  intro rows
  induction rows with
  | nil => intro acum base hinv i hi; simp at hi
  | cons row rest ih =>
    intro acum base hinv i hi
    rw [cuotasLoop_cons]
    cases i with
    | zero =>
      simp only [List.take_zero, prefixPagoSum_nil, add_zero, List.getD_cons_zero,
        List.get?_cons_zero]
      by_cases hact : (mapaLookup dataPro (filaKey row)).isSome ∧
          0 < valCuotaDe dataPro colValor (filaKey row)
      · have hq : qget acum (filaKey row) = base (filaKey row) := by
          rw [hinv (filaKey row)]; simp [hact]
        rw [hq]
        exact ⟨rfl, rfl⟩
      · have he := pasoFilaCuotas_indep dataPro pagoCols colValor keyActual row
          (qget acum (filaKey row)) (base (filaKey row)) (Or.inr hact)
        rw [he]
        exact ⟨rfl, rfl⟩
    | succ i =>
      have hi' : i < rest.length := by simpa using hi
      simp only [List.getD_cons_succ, List.take_succ_cons, List.get?_cons_succ]
      set r := pasoFilaCuotas dataPro pagoCols colValor keyActual row
        (qget acum (filaKey row)) with hrdef
      set acum' := (if r.2 then
        (filaKey row, qget acum (filaKey row) + filaPago row) :: acum else acum) with hacum'
      set base' := (fun k => base k +
        (if filaDni row ≠ [] ∧ filaKey row = k then filaPago row else 0)) with hbase'
      have hinv' : ∀ k, qget acum' k =
          if (mapaLookup dataPro k).isSome ∧ 0 < valCuotaDe dataPro colValor k
          then base' k else 0 := by
        intro k
        by_cases hr2 : r.2 = true
        · obtain ⟨hdni, hm, hv⟩ :=
            (pasoFilaCuotas_snd dataPro pagoCols colValor keyActual row
              (qget acum (filaKey row))).mp hr2
          rw [hacum']
          simp only [hr2, if_true]
          rw [qget_cons]
          by_cases hk : k = filaKey row
          · rw [if_pos hk, hk]
            have hq : qget acum (filaKey row) = base (filaKey row) := by
              rw [hinv (filaKey row)]; simp [hm, hv]
            rw [hq, hbase']
            simp [hm, hv, hdni]
          · rw [if_neg hk]
            rw [hinv k, hbase']
            have : ¬ (filaDni row ≠ [] ∧ filaKey row = k) := by
              rintro ⟨-, hkk⟩; exact hk (hkk.symm)
            simp [this]
        · have hr2' : r.2 = false := by simpa using hr2
          have hncond : ¬ (filaDni row ≠ [] ∧ (mapaLookup dataPro (filaKey row)).isSome ∧
              0 < valCuotaDe dataPro colValor (filaKey row)) := by
            intro hc
            exact hr2 ((pasoFilaCuotas_snd dataPro pagoCols colValor keyActual row
              (qget acum (filaKey row))).mpr hc)
          rw [hacum']
          simp only [hr2', if_false, Bool.false_eq_true]
          by_cases hk : k = filaKey row
          · rw [hk]
            by_cases hdni : filaDni row = []
            · rw [hinv (filaKey row), hbase']
              simp [hdni]
            · have hnact : ¬ ((mapaLookup dataPro (filaKey row)).isSome ∧
                  0 < valCuotaDe dataPro colValor (filaKey row)) := fun hc => hncond ⟨hdni, hc⟩
              rw [hinv (filaKey row)]
              simp [hnact]
          · rw [hinv k, hbase']
            have : ¬ (filaDni row ≠ [] ∧ filaKey row = k) := by
              rintro ⟨-, hkk⟩; exact hk (hkk.symm)
            simp [this]
      have hrec := ih acum' base' hinv' i hi'
      have harg : base' (filaKey (rest.getD i [])) +
          prefixPagoSum (rest.take i) (filaKey (rest.getD i [])) =
          base (filaKey (rest.getD i [])) +
            prefixPagoSum (row :: rest.take i) (filaKey (rest.getD i [])) := by
        rw [prefixPagoSum_cons, hbase']
        ring
      rw [← harg]
      exact hrec

/-- The decision logic in the claims' vocabulary: thresholds, remainder,
rounding, and the cap written as `min`.  `remainder` is
`estado - V * ⌊estado / V⌋` and `floor(ratio) + 1` replaces the `int()`
truncation, valid because the running total is nonnegative. -/
theorem clasificar_spec (estado V : ℚ) (C : ℤ) (hE : 0 ≤ estado) (hV : 0 < V) :
    clasificar estado V C =
      (if V * C - 50 ≤ estado then str "Total"
       else if estado < V - 50 then str "Parcial"
       else if estado - V * ⌊estado / V⌋ < 100 ∨ V - (estado - V * ⌊estado / V⌋) < 100
       then str "Cuota" else str "Parcial",
       if V * C - 50 ≤ estado then C
       else if estado < V - 50 then 1
       else if estado - V * ⌊estado / V⌋ < 100 ∨ V - (estado - V * ⌊estado / V⌋) < 100
       then min (pythonRound (estado / V)) C
       else min (⌊estado / V⌋ + 1) C) := by
  unfold clasificar
  have htr : truncPy (estado / V) = ⌊estado / V⌋ := by
    unfold truncPy
    rw [if_neg]
    exact not_lt.mpr (div_nonneg hE hV.le)
  have hmin : ∀ z : ℤ, (if z > C then C else z) = min z C := by
    intro z
    by_cases hz : z > C
    · rw [if_pos hz, min_eq_right hz.le]
    · rw [if_neg hz, min_eq_left (not_lt.mp hz)]
  by_cases h1 : estado ≥ V * C - 50
  · simp [h1, ge_iff_le]
  · have h1' : ¬ (V * C - 50 ≤ estado) := h1
    by_cases h2 : estado < V - 50
    · simp [h1, h1', h2]
    · by_cases h3 : estado - V * ⌊estado / V⌋ < 100 ∨ V - (estado - V * ⌊estado / V⌋) < 100
      · simp [h1, h1', h2, h3, hmin]
      · simp [h1, h1', h2, h3, hmin, htr]

/-- `valCuotaDe` through a resolved lookup. -/
theorem valCuotaDe_eq (dataPro : List (List Str)) (colValor : ℕ) (k : Str)
    (idxPro : ℕ) (hmap : mapaLookup dataPro k = some idxPro) :
    valCuotaDe dataPro colValor k =
      parsearMontoFloat ((dataPro.getD idxPro []).getD colValor []) := by
  unfold valCuotaDe
  rw [hmap]
  rfl

/-- One loop step on a row whose contract matched with a positive
installment value. -/
theorem pasoFilaCuotas_activo (dataPro : List (List Str)) (pagoCols : List PagoCol)
    (colValor keyActual : ℕ) (row : List Str) (acumV : ℚ) (idxPro : ℕ)
    (hdni : filaDni row ≠ [])
    (hmap : mapaLookup dataPro (filaKey row) = some idxPro)
    (hV : 0 < valCuotaDe dataPro colValor (filaKey row)) :
    pasoFilaCuotas dataPro pagoCols colValor keyActual row acumV =
      (((clasificar
          (sumarHistoria (dataPro.getD idxPro []) pagoCols keyActual + acumV + filaPago row)
          (valCuotaDe dataPro colValor (filaKey row))
          (cantCuotasOf (dataPro.getD idxPro []))).1,
        some (clasificar
          (sumarHistoria (dataPro.getD idxPro []) pagoCols keyActual + acumV + filaPago row)
          (valCuotaDe dataPro colValor (filaKey row))
          (cantCuotasOf (dataPro.getD idxPro []))).2), true) := by
  unfold pasoFilaCuotas
  simp [hdni, hV, hmap]

/-- Nonnegativity of the per-period prefix sums. -/
theorem prefixPagoSum_nonneg (rows : List (List Str)) (k : Str) :
    0 ≤ prefixPagoSum rows k := by
  unfold prefixPagoSum
  apply List.sum_nonneg
  intro x hx
  obtain ⟨r, -, rfl⟩ := List.mem_map.mp hx
  exact parsearMontoFloat_nonneg _

/-- Nonnegativity of the history sums. -/
theorem sumaPagos_nonneg (rowPro : List Str) (cols : List PagoCol) :
    0 ≤ (cols.map (fun p => parsearMontoFloat (rowPro.getD p.col []))).sum := by
  apply List.sum_nonneg
  intro x hx
  obtain ⟨r, -, rfl⟩ := List.mem_map.mp hx
  exact parsearMontoFloat_nonneg _

/-- The classification a matched positive-value row receives, stated in
the claims' terms (shared by the accumulator claims). -/
theorem cuotasRowSpec
    (mesIdx anio : ℕ) (headerPro : List Str) (dataPro : List (List Str))
    (dataMes : List (List Str)) (colValor i idxPro : ℕ)
    (hpro : dataPro ≠ [])
    (hcol : findValorCuotaCol headerPro mesIdx anio = some colValor)
    (hlen : 1 < dataMes.length)
    (hi : i < (dataMes.drop 1).length)
    (hdni : filaDni ((dataMes.drop 1).getD i []) ≠ [])
    (hmap : mapaLookup dataPro (filaKey ((dataMes.drop 1).getD i [])) = some idxPro)
    (V : ℚ) (hVdef : V = parsearMontoFloat ((dataPro.getD idxPro []).getD colValor []))
    (C : ℤ) (hCdef : C = cantCuotasOf (dataPro.getD idxPro []))
    (rt : ℚ)
    (hrt : rt = (((pagoColumnsRaw headerPro).filter
          (fun p => p.key < anio * 12 + mesIdx)).map
          (fun p => parsearMontoFloat ((dataPro.getD idxPro []).getD p.col []))).sum +
        prefixPagoSum ((dataMes.drop 1).take i) (filaKey ((dataMes.drop 1).getD i [])) +
        filaPago ((dataMes.drop 1).getD i []))
    (hV : 0 < V) :
    ∃ conceptos cuotas actualizadas,
      ejecutarCuotasConcepto mesIdx anio headerPro dataPro dataMes =
        some (conceptos, cuotas, actualizadas) ∧
      conceptos.get? i = some
        (if V * C - 50 ≤ rt then str "Total"
         else if rt < V - 50 then str "Parcial"
         else if rt - V * ⌊rt / V⌋ < 100 ∨ V - (rt - V * ⌊rt / V⌋) < 100 then str "Cuota"
         else str "Parcial") ∧
      cuotas.get? i = some (some
        (if V * C - 50 ≤ rt then C
         else if rt < V - 50 then 1
         else if rt - V * ⌊rt / V⌋ < 100 ∨ V - (rt - V * ⌊rt / V⌋) < 100
         then min (pythonRound (rt / V)) C
         else min (⌊rt / V⌋ + 1) C)) := by
  subst hVdef
  subst hCdef
  subst hrt
  have hrun : ejecutarCuotasConcepto mesIdx anio headerPro dataPro dataMes =
      some (cuotasLoop dataPro (getPagoColumns headerPro) colValor (anio * 12 + mesIdx)
        [] (dataMes.drop 1)) := by
    unfold ejecutarCuotasConcepto
    rw [if_neg hpro]
    simp only [hcol]
    rw [if_neg (by omega : ¬ dataMes.length ≤ 1)]
  have hinv0 : ∀ k, qget [] k =
      if (mapaLookup dataPro k).isSome ∧ 0 < valCuotaDe dataPro colValor k
      then (fun _ : Str => (0 : ℚ)) k else 0 := by
    intro k
    simp [qget, List.lookup]
  obtain ⟨hc, hq⟩ := cuotasLoop_get dataPro (getPagoColumns headerPro) colValor
    (anio * 12 + mesIdx) (dataMes.drop 1) [] (fun _ => 0) hinv0 i hi
  have hVc : 0 < valCuotaDe dataPro colValor (filaKey ((dataMes.drop 1).getD i [])) := by
    rw [valCuotaDe_eq dataPro colValor _ idxPro hmap]
    exact hV
  rw [pasoFilaCuotas_activo dataPro (getPagoColumns headerPro) colValor
    (anio * 12 + mesIdx) ((dataMes.drop 1).getD i [])
    ((fun _ : Str => (0 : ℚ)) (filaKey ((dataMes.drop 1).getD i [])) +
      prefixPagoSum ((dataMes.drop 1).take i) (filaKey ((dataMes.drop 1).getD i [])))
    idxPro hdni hmap hVc] at hc hq
  rw [valCuotaDe_eq dataPro colValor _ idxPro hmap] at hc hq
  rw [sumarHistoria_eq_historiaSpec] at hc hq
  have hE : 0 ≤ (((pagoColumnsRaw headerPro).filter
        (fun p => p.key < anio * 12 + mesIdx)).map
        (fun p => parsearMontoFloat ((dataPro.getD idxPro []).getD p.col []))).sum +
      ((fun _ : Str => (0 : ℚ)) (filaKey ((dataMes.drop 1).getD i [])) +
        prefixPagoSum ((dataMes.drop 1).take i) (filaKey ((dataMes.drop 1).getD i []))) +
      filaPago ((dataMes.drop 1).getD i []) := by
    have h1 := sumaPagos_nonneg (dataPro.getD idxPro [])
      ((pagoColumnsRaw headerPro).filter (fun p => p.key < anio * 12 + mesIdx))
    have h2 := prefixPagoSum_nonneg ((dataMes.drop 1).take i)
      (filaKey ((dataMes.drop 1).getD i []))
    have h3 := parsearMontoFloat_nonneg (((dataMes.drop 1).getD i []).getD 3 [])
    unfold filaPago
    positivity
  rw [clasificar_spec _ _ _ hE hV] at hc hq
  refine ⟨_, _, _, hrun, ?_, ?_⟩
  · rw [hc]
    norm_num
  · rw [hq]
    norm_num

/-- C1: for every target-period row of a contract with installment value
`V > 0` and installment count `C`, processed in original row order, the
recompute assigns concept and installment number from
`running_total = history + earlier same-contract rows + this row's payment`
by: `running_total ≥ V*C - 50` → ("Total", C); `running_total < V - 50` →
("Parcial", 1); otherwise, with `remainder = running_total mod V`,
("Cuota", round(running_total / V)) when `remainder < 100` or
`V - remainder < 100`, else ("Parcial", ⌊running_total / V⌋ + 1), both
capped at `C`. -/
theorem c1_installment_accumulator_classification
    (mesIdx anio : ℕ) (headerPro : List Str) (dataPro : List (List Str))
    (dataMes : List (List Str)) (colValor i idxPro : ℕ)
    (hpro : dataPro ≠ [])
    (hcol : findValorCuotaCol headerPro mesIdx anio = some colValor)
    (hlen : 1 < dataMes.length)
    (hi : i < (dataMes.drop 1).length)
    (hdni : filaDni ((dataMes.drop 1).getD i []) ≠ [])
    (hmap : mapaLookup dataPro (filaKey ((dataMes.drop 1).getD i [])) = some idxPro)
    (V : ℚ) (hVdef : V = parsearMontoFloat ((dataPro.getD idxPro []).getD colValor []))
    (C : ℤ) (hCdef : C = cantCuotasOf (dataPro.getD idxPro []))
    (rt : ℚ)
    (hrt : rt = (((pagoColumnsRaw headerPro).filter
          (fun p => p.key < anio * 12 + mesIdx)).map
          (fun p => parsearMontoFloat ((dataPro.getD idxPro []).getD p.col []))).sum +
        prefixPagoSum ((dataMes.drop 1).take i) (filaKey ((dataMes.drop 1).getD i [])) +
        filaPago ((dataMes.drop 1).getD i []))
    (hV : 0 < V) :
    ∃ conceptos cuotas actualizadas,
      ejecutarCuotasConcepto mesIdx anio headerPro dataPro dataMes =
        some (conceptos, cuotas, actualizadas) ∧
      conceptos.get? i = some
        (if V * C - 50 ≤ rt then str "Total"
         else if rt < V - 50 then str "Parcial"
         else if rt - V * ⌊rt / V⌋ < 100 ∨ V - (rt - V * ⌊rt / V⌋) < 100 then str "Cuota"
         else str "Parcial") ∧
      cuotas.get? i = some (some
        (if V * C - 50 ≤ rt then C
         else if rt < V - 50 then 1
         else if rt - V * ⌊rt / V⌋ < 100 ∨ V - (rt - V * ⌊rt / V⌋) < 100
         then min (pythonRound (rt / V)) C
         else min (⌊rt / V⌋ + 1) C)) :=
  cuotasRowSpec mesIdx anio headerPro dataPro dataMes colValor i idxPro hpro hcol hlen
    hi hdni hmap V hVdef C hCdef rt hrt hV

/-- Concrete `Pro` header for the accumulator witnesses: installment count
in column 7, portfolio in column 9, the January-2026 installment-value
column at index 10. -/
def cuotasEjemploHeader : List Str :=
  [str "c0", str "c1", str "DNI", str "c3", str "c4", str "c5", str "c6",
   str "Cuotas", str "c8", str "Cartera", str "Enero 26"]

/-- Concrete `Pro` rows: three contracts with `V = 1000`, `C = 12`. -/
def cuotasEjemploPro : List (List Str) :=
  [[str "", str "", str "11111111", str "", str "", str "", str "", str "12",
    str "", str "X", str "1000"],
   [str "", str "", str "22222222", str "", str "", str "", str "", str "12",
    str "", str "X", str "1000"],
   [str "", str "", str "33333333", str "", str "", str "", str "", str "12",
    str "", str "X", str "1000"]]

/-- Concrete month sheet: one payment row per contract, amounts 11960,
900 and 2950. -/
def cuotasEjemploMes : List (List Str) :=
  [[str "DNI"],
   [str "11111111", str "", str "", str "11960", str "", str "", str "", str "", str "X"],
   [str "22222222", str "", str "", str "900", str "", str "", str "", str "", str "X"],
   [str "33333333", str "", str "", str "2950", str "", str "", str "", str "", str "X"]]

/-- Witness for C1: with `V = 1000`, `C = 12`, running totals 11960, 900
and 2950 classify as ("Total", 12), ("Parcial", 1) and ("Cuota", 3). -/
theorem c1_installment_accumulator_classification_witness :
    ∃ conceptos cuotas actualizadas,
      ejecutarCuotasConcepto 0 2026 cuotasEjemploHeader cuotasEjemploPro
        cuotasEjemploMes = some (conceptos, cuotas, actualizadas) ∧
      conceptos.get? 0 = some (str "Total") ∧ cuotas.get? 0 = some (some 12) ∧
      conceptos.get? 1 = some (str "Parcial") ∧ cuotas.get? 1 = some (some 1) ∧
      conceptos.get? 2 = some (str "Cuota") ∧ cuotas.get? 2 = some (some 3) := by
  obtain ⟨cs, qs, n, hrun, hc0, hq0⟩ :=
    c1_installment_accumulator_classification 0 2026 cuotasEjemploHeader
      cuotasEjemploPro cuotasEjemploMes 10 0 0 (by decide) (by decide) (by decide)
      (by decide) (by decide) (by decide) 1000 (by decide) 12 (by decide)
      11960 (by decide) (by decide)
  obtain ⟨cs', qs', n', hrun', hc1, hq1⟩ :=
    c1_installment_accumulator_classification 0 2026 cuotasEjemploHeader
      cuotasEjemploPro cuotasEjemploMes 10 1 1 (by decide) (by decide) (by decide)
      (by decide) (by decide) (by decide) 1000 (by decide) 12 (by decide)
      900 (by decide) (by decide)
  obtain ⟨cs'', qs'', n'', hrun'', hc2, hq2⟩ :=
    c1_installment_accumulator_classification 0 2026 cuotasEjemploHeader
      cuotasEjemploPro cuotasEjemploMes 10 2 2 (by decide) (by decide) (by decide)
      (by decide) (by decide) (by decide) 1000 (by decide) 12 (by decide)
      2950 (by decide) (by decide)
  have e1 := Option.some.inj (hrun'.symm.trans hrun)
  have e2 := Option.some.inj (hrun''.symm.trans hrun)
  have ec1 : cs' = cs := congrArg (·.1) e1
  have eq1 : qs' = qs := congrArg (·.2.1) e1
  have ec2 : cs'' = cs := congrArg (·.1) e2
  have eq2 : qs'' = qs := congrArg (·.2.1) e2
  rw [ec1] at hc1
  rw [eq1] at hq1
  rw [ec2] at hc2
  rw [eq2] at hq2
  refine ⟨cs, qs, n, hrun, ?_, ?_, ?_, ?_, ?_, ?_⟩
  · rw [hc0]; decide
  · rw [hq0]; decide
  · rw [hc1]; decide
  · rw [hq1]; decide
  · rw [hc2]; decide
  · rw [hq2]; decide

/-- C10 (implicit): when the matched contract's installment-count cell is
missing, fails `int()`, or is below 1, the classifier substitutes 999:
"Total" is assigned exactly when the running total reaches `999·V - 50`,
and the installment number is capped at 999 instead of a real count. -/
theorem c10_missing_count_becomes_999
    (mesIdx anio : ℕ) (headerPro : List Str) (dataPro : List (List Str))
    (dataMes : List (List Str)) (colValor i idxPro : ℕ)
    (hpro : dataPro ≠ [])
    (hcol : findValorCuotaCol headerPro mesIdx anio = some colValor)
    (hlen : 1 < dataMes.length)
    (hi : i < (dataMes.drop 1).length)
    (hdni : filaDni ((dataMes.drop 1).getD i []) ≠ [])
    (hmap : mapaLookup dataPro (filaKey ((dataMes.drop 1).getD i [])) = some idxPro)
    (hbad : (dataPro.getD idxPro []).length ≤ 7 ∨
      intPy ((dataPro.getD idxPro []).getD 7 []) = none ∨
      (∃ v, intPy ((dataPro.getD idxPro []).getD 7 []) = some v ∧ v < 1))
    (V : ℚ) (hVdef : V = parsearMontoFloat ((dataPro.getD idxPro []).getD colValor []))
    (rt : ℚ)
    (hrt : rt = (((pagoColumnsRaw headerPro).filter
          (fun p => p.key < anio * 12 + mesIdx)).map
          (fun p => parsearMontoFloat ((dataPro.getD idxPro []).getD p.col []))).sum +
        prefixPagoSum ((dataMes.drop 1).take i) (filaKey ((dataMes.drop 1).getD i [])) +
        filaPago ((dataMes.drop 1).getD i []))
    (hV : 0 < V) :
    cantCuotasOf (dataPro.getD idxPro []) = 999 ∧
    ∃ conceptos cuotas actualizadas,
      ejecutarCuotasConcepto mesIdx anio headerPro dataPro dataMes =
        some (conceptos, cuotas, actualizadas) ∧
      (conceptos.get? i = some (str "Total") ↔ V * 999 - 50 ≤ rt) ∧
      (∀ q, cuotas.get? i = some (some q) → q ≤ 999) := by
  have h999 : cantCuotasOf (dataPro.getD idxPro []) = 999 := by
    unfold cantCuotasOf
    dsimp only
    rcases hbad with h | h | ⟨v, hv, hlt⟩
    · rw [if_neg (by omega : ¬ 7 < (dataPro.getD idxPro []).length)]
      decide
    · by_cases hl : 7 < (dataPro.getD idxPro []).length
      · rw [if_pos hl, h]
        decide
      · rw [if_neg hl]
        decide
    · by_cases hl : 7 < (dataPro.getD idxPro []).length
      · rw [if_pos hl, hv]
        exact if_pos hlt
      · rw [if_neg hl]
        decide
  obtain ⟨cs, qs, n, hrun, hc, hq⟩ := cuotasRowSpec mesIdx anio headerPro dataPro
    dataMes colValor i idxPro hpro hcol hlen hi hdni hmap V hVdef 999 h999.symm rt hrt hV
  refine ⟨h999, cs, qs, n, hrun, ?_, ?_⟩
  · constructor
    · intro hT
      by_contra hnot
      rw [hc] at hT
      have hTot := Option.some.inj hT
      have hcast : ((999 : ℤ) : ℚ) = (999 : ℚ) := by norm_num
      rw [hcast] at hTot
      rw [if_neg hnot] at hTot
      split_ifs at hTot <;> exact absurd hTot (by decide)
    · intro hle
      rw [hc]
      have hcast : ((999 : ℤ) : ℚ) = (999 : ℚ) := by norm_num
      rw [hcast, if_pos hle]
  · intro q hq'
    rw [hq] at hq'
    have := Option.some.inj (Option.some.inj hq')
    subst this
    split_ifs <;>
      first
        | exact le_refl 999
        | exact (by decide : (1 : ℤ) ≤ 999)
        | exact min_le_right _ 999

/-- `Pro` rows for the C10 witness: the installment-count cell holds the
non-integer text `"abc"`. -/
def c10EjemploPro : List (List Str) :=
  [[str "", str "", str "11111111", str "", str "", str "", str "", str "abc",
    str "", str "X", str "1000"]]

/-- Month sheet for the C10 witness. -/
def c10EjemploMes : List (List Str) :=
  [[str "DNI"],
   [str "11111111", str "", str "", str "2950", str "", str "", str "", str "", str "X"]]

/-- Witness for C10 at a concrete contract whose count cell is `"abc"`. -/
theorem c10_missing_count_becomes_999_witness :
    cantCuotasOf (c10EjemploPro.getD 0 []) = 999 ∧
    ∃ conceptos cuotas actualizadas,
      ejecutarCuotasConcepto 0 2026 cuotasEjemploHeader c10EjemploPro
        c10EjemploMes = some (conceptos, cuotas, actualizadas) ∧
      (conceptos.get? 0 = some (str "Total") ↔ (1000 : ℚ) * 999 - 50 ≤ 2950) ∧
      (∀ q, cuotas.get? 0 = some (some q) → q ≤ 999) :=
  c10_missing_count_becomes_999 0 2026 cuotasEjemploHeader c10EjemploPro
    c10EjemploMes 10 0 0 (by decide) (by decide) (by decide) (by decide)
    (by decide) (by decide) (Or.inr (Or.inl (by decide))) 1000 (by decide)
    2950 (by decide) (by decide)

/-! ### Idempotence of the recompute (C2) -/

/-- The only fields of a month-sheet row the recompute reads: identifier
(column 0), payment amount (column 3) and portfolio (column 8). -/
def filaVista (row : List Str) : Str × Str × Str :=
  (row.getD 0 [], row.getD 3 [], row.getD 8 [])

/-- `setPad` only changes the targeted cell. -/
theorem getD_setPad_ne (v : Str) :
    ∀ (n k : ℕ) (l : List Str), k ≠ n → (setPad v n l).getD k [] = l.getD k [] := by
  intro n
  induction n with
  | zero =>
    intro k l hk
    cases l with
    | nil =>
      cases k with
      | zero => exact absurd rfl hk
      | succ k => simp [setPad]
    | cons c t =>
      cases k with
      | zero => exact absurd rfl hk
      | succ k => simp [setPad]
  | succ n ih =>
    intro k l hk
    cases l with
    | nil =>
      cases k with
      | zero => simp [setPad]
      | succ k =>
        simp only [setPad, List.getD_cons_succ]
        exact ih k [] (fun h => hk (by omega))
    | cons c t =>
      cases k with
      | zero => simp [setPad]
      | succ k =>
        simp only [setPad, List.getD_cons_succ]
        exact ih k t (fun h => hk (by omega))

/-- Equal views give equal row fields. -/
theorem filaVista_fields (r r' : List Str) (h : filaVista r = filaVista r') :
    filaDni r = filaDni r' ∧ filaKey r = filaKey r' ∧ filaPago r = filaPago r' := by
  have h0 : r.getD 0 [] = r'.getD 0 [] := congrArg (·.1) h
  have h3 : r.getD 3 [] = r'.getD 3 [] := congrArg (·.2.1) h
  have h8 : r.getD 8 [] = r'.getD 8 [] := congrArg (·.2.2) h
  refine ⟨?_, ?_, ?_⟩
  · unfold filaDni strGet; rw [h0]
  · unfold filaKey filaDni filaCartera strGet; rw [h0, h8]
  · unfold filaPago; rw [h3]

/-- The loop step only reads a row through its view. -/
theorem pasoFilaCuotas_congr (dataPro : List (List Str)) (pagoCols : List PagoCol)
    (colValor keyActual : ℕ) (r r' : List Str) (a : ℚ)
    (h : filaVista r = filaVista r') :
    pasoFilaCuotas dataPro pagoCols colValor keyActual r a =
      pasoFilaCuotas dataPro pagoCols colValor keyActual r' a := by
  obtain ⟨hd, hk, hp⟩ := filaVista_fields r r' h
  unfold pasoFilaCuotas
  rw [hd, hk, hp]

/-- The loop only reads rows through their views. -/
theorem cuotasLoop_congr (dataPro : List (List Str)) (pagoCols : List PagoCol)
    (colValor keyActual : ℕ) :
    ∀ (rows rows' : List (List Str)) (acum : List (Str × ℚ)),
      rows.map filaVista = rows'.map filaVista →
      cuotasLoop dataPro pagoCols colValor keyActual acum rows =
        cuotasLoop dataPro pagoCols colValor keyActual acum rows' := by
  intro rows
  induction rows with
  | nil =>
    intro rows' acum h
    cases rows' with
    | nil => rfl
    | cons r t => simp at h
  | cons row rest ih =>
    intro rows' acum h
    cases rows' with
    | nil => simp at h
    | cons row' rest' =>
      simp only [List.map_cons, List.cons.injEq] at h
      obtain ⟨hv, ht⟩ := h
      obtain ⟨hd, hk, hp⟩ := filaVista_fields row row' hv
      rw [cuotasLoop_cons, cuotasLoop_cons]
      rw [pasoFilaCuotas_congr dataPro pagoCols colValor keyActual row row' _ hv]
      rw [hk, hp]
      dsimp only
      rw [ih rest' _ ht]

/-- Output column lengths equal the number of data rows. -/
theorem cuotasLoop_length (dataPro : List (List Str)) (pagoCols : List PagoCol)
    (colValor keyActual : ℕ) :
    ∀ (rows : List (List Str)) (acum : List (Str × ℚ)),
      (cuotasLoop dataPro pagoCols colValor keyActual acum rows).1.length = rows.length ∧
      (cuotasLoop dataPro pagoCols colValor keyActual acum rows).2.1.length = rows.length := by
  intro rows
  induction rows with
  | nil => intro acum; exact ⟨rfl, rfl⟩
  | cons row rest ih =>
    intro acum
    rw [cuotasLoop_cons]
    refine ⟨?_, ?_⟩ <;> simp [ih]

/-- The recompute reads only the contract table and the rows' views. -/
theorem ejecutarCuotasConcepto_congr (mesIdx anio : ℕ) (headerPro : List Str)
    (dataPro : List (List Str)) (dataMes dataMes' : List (List Str))
    (hlen : dataMes.length = dataMes'.length)
    (hview : (dataMes.drop 1).map filaVista = (dataMes'.drop 1).map filaVista) :
    ejecutarCuotasConcepto mesIdx anio headerPro dataPro dataMes =
      ejecutarCuotasConcepto mesIdx anio headerPro dataPro dataMes' := by
  unfold ejecutarCuotasConcepto
  by_cases hpro : dataPro = []
  · rw [if_pos hpro, if_pos hpro]
  · rw [if_neg hpro, if_neg hpro]
    dsimp only
    cases hcol : findValorCuotaCol headerPro mesIdx anio with
    | none => rfl
    | some colValor =>
      dsimp only
      rw [hlen]
      by_cases hl : dataMes'.length ≤ 1
      · rw [if_pos hl, if_pos hl]
      · rw [if_neg hl, if_neg hl]
        rw [cuotasLoop_congr dataPro (getPagoColumns headerPro) colValor
          (anio * 12 + mesIdx) (dataMes.drop 1) (dataMes'.drop 1) [] hview]

/-- Writing the two result columns leaves a row's view unchanged. -/
theorem filaVista_setPad (c : Str) (q : Option ℤ) (row : List Str) :
    filaVista (setPad (cuotaCell q) 6 (setPad c 4 row)) = filaVista row := by
  unfold filaVista
  rw [getD_setPad_ne (cuotaCell q) 6 0 _ (by omega),
    getD_setPad_ne c 4 0 _ (by omega),
    getD_setPad_ne (cuotaCell q) 6 3 _ (by omega),
    getD_setPad_ne c 4 3 _ (by omega),
    getD_setPad_ne (cuotaCell q) 6 8 _ (by omega),
    getD_setPad_ne c 4 8 _ (by omega)]

/-- Row views survive the batch write. -/
theorem zipWith_escritura_vista :
    ∀ (rows : List (List Str)) (pairs : List (Str × Option ℤ)),
      rows.length ≤ pairs.length →
      (rows.zipWith (fun row cq => setPad (cuotaCell cq.2) 6 (setPad cq.1 4 row))
        pairs).map filaVista = rows.map filaVista := by
  intro rows
  induction rows with
  | nil => intro pairs h; rfl
  | cons row rest ih =>
    intro pairs h
    cases pairs with
    | nil => simp at h
    | cons p ps =>
      simp only [List.zipWith_cons_cons, List.map_cons]
      rw [filaVista_setPad p.1 p.2 row, ih ps (by simpa using h)]

/-- The in-place write of the two columns preserves the sheet's length and
every row's view. -/
theorem pasoCuotas_preserva (mesIdx anio : ℕ) (headerPro : List Str)
    (dataPro : List (List Str)) (dataMes : List (List Str)) :
    (pasoCuotas mesIdx anio headerPro dataPro dataMes).length = dataMes.length ∧
    ((pasoCuotas mesIdx anio headerPro dataPro dataMes).drop 1).map filaVista =
      (dataMes.drop 1).map filaVista := by
  unfold pasoCuotas
  cases hrun : ejecutarCuotasConcepto mesIdx anio headerPro dataPro dataMes with
  | none => exact ⟨rfl, rfl⟩
  | some out =>
    -- a successful run pins the output columns' lengths to the data rows
    have hout : out = cuotasLoop dataPro (getPagoColumns headerPro)
        ((findValorCuotaCol headerPro mesIdx anio).getD 0) (anio * 12 + mesIdx)
        [] (dataMes.drop 1) ∧ ¬ dataMes.length ≤ 1 := by
      unfold ejecutarCuotasConcepto at hrun
      by_cases hpro : dataPro = []
      · rw [if_pos hpro] at hrun; exact absurd hrun (by simp)
      · rw [if_neg hpro] at hrun
        dsimp only at hrun
        cases hcol : findValorCuotaCol headerPro mesIdx anio with
        | none => rw [hcol] at hrun; exact absurd hrun (by simp)
        | some colValor =>
          rw [hcol] at hrun
          dsimp only at hrun
          by_cases hl : dataMes.length ≤ 1
          · rw [if_pos hl] at hrun; exact absurd hrun (by simp)
          · rw [if_neg hl] at hrun
            exact ⟨(Option.some.inj hrun).symm, hl⟩
    obtain ⟨hout, hl⟩ := hout
    cases dataMes with
    | nil => simp at hl
    | cons hdr rows =>
      have hcs : out.1.length = rows.length := by
        rw [hout]
        exact (cuotasLoop_length dataPro (getPagoColumns headerPro) _ _ rows []).1
      have hqs : out.2.1.length = rows.length := by
        rw [hout]
        exact (cuotasLoop_length dataPro (getPagoColumns headerPro) _ _ rows []).2
      unfold aplicarEscrituraMes
      constructor
      · simp only [List.length_cons]
        rw [List.length_zipWith, List.length_zip, hcs, hqs]
        omega
      · simp only [List.drop_succ_cons, List.drop_zero]
        exact zipWith_escritura_vista rows (out.1.zip out.2.1)
          (by rw [List.length_zip, hcs, hqs]; omega)

/-- C2: the installment recompute is idempotent — running it again on the
sheet it just wrote yields the same concepts and installment numbers — and
its output depends on the month sheet only through each row's identifier,
payment amount and portfolio fields, never through the previously written
concept or installment columns. -/
theorem c2_recompute_idempotent (mesIdx anio : ℕ) (headerPro : List Str)
    (dataPro : List (List Str)) (dataMes : List (List Str)) :
    ejecutarCuotasConcepto mesIdx anio headerPro dataPro
        (pasoCuotas mesIdx anio headerPro dataPro dataMes) =
      ejecutarCuotasConcepto mesIdx anio headerPro dataPro dataMes ∧
    (∀ dataMes' : List (List Str), dataMes.length = dataMes'.length →
      (dataMes.drop 1).map filaVista = (dataMes'.drop 1).map filaVista →
      ejecutarCuotasConcepto mesIdx anio headerPro dataPro dataMes =
        ejecutarCuotasConcepto mesIdx anio headerPro dataPro dataMes') := by
  obtain ⟨hlen, hview⟩ := pasoCuotas_preserva mesIdx anio headerPro dataPro dataMes
  exact ⟨ejecutarCuotasConcepto_congr mesIdx anio headerPro dataPro _ _ hlen hview,
    fun dataMes' h1 h2 =>
      ejecutarCuotasConcepto_congr mesIdx anio headerPro dataPro _ _ h1 h2⟩

/-- Witness for C2: the concrete accumulator example rerun on its own
written sheet, and a sheet differing only in the written columns. -/
theorem c2_recompute_idempotent_witness :
    ejecutarCuotasConcepto 0 2026 cuotasEjemploHeader cuotasEjemploPro
        (pasoCuotas 0 2026 cuotasEjemploHeader cuotasEjemploPro cuotasEjemploMes) =
      ejecutarCuotasConcepto 0 2026 cuotasEjemploHeader cuotasEjemploPro
        cuotasEjemploMes ∧
    ejecutarCuotasConcepto 0 2026 cuotasEjemploHeader cuotasEjemploPro
        cuotasEjemploMes =
      ejecutarCuotasConcepto 0 2026 cuotasEjemploHeader cuotasEjemploPro
        [[str "DNI"],
         [str "11111111", str "", str "", str "11960", str "stale", str "",
          str "7", str "", str "X"],
         [str "22222222", str "", str "", str "900", str "stale", str "",
          str "7", str "", str "X"],
         [str "33333333", str "", str "", str "2950", str "stale", str "",
          str "7", str "", str "X"]] := by
  have h := c2_recompute_idempotent 0 2026 cuotasEjemploHeader cuotasEjemploPro
    cuotasEjemploMes
  exact ⟨h.1, h.2 _ (by decide) (by decide)⟩

/-! ### C4 — `parse_amount` against its specified case analysis -/

/-- Decimal reading of a string with `sep` as its decimal point: at most
one separator, at least one digit and nothing else, otherwise 0 (the
`float()` failure contract).  `decValue '.'` coincides with `floatPy`. -/
def decValue (sep : Char) (l : Str) : ℚ :=
  match splitOnC sep l with
  | [a] => if a ≠ [] ∧ a.all Char.isDigit then (natVal a : ℚ) else 0
  | [a, b] =>
    if (a ++ b) ≠ [] ∧ (a ++ b).all Char.isDigit then
      (natVal a : ℚ) + (natVal b : ℚ) / 10 ^ b.length
    else 0
  | _ => 0

/-- The claim's case analysis for `parse_amount` exactly as stated: a lone
comma is a decimal separator only when exactly two digits follow it. -/
def specParseAmountClaim (l : Str) : ℚ :=
  let s := (stripL l).filter keepMonto
  if s = [] then 0
  else if s.contains ',' ∧ s.contains '.' then
    if lastSep s = some ',' then decValue ',' (s.filter (fun c => c ≠ '.'))
    else decValue '.' (s.filter (fun c => c ≠ ','))
  else if s.contains ',' then
    match splitOnC ',' s with
    | [_, frac] =>
      if frac.length = 2 then decValue ',' s
      else decValue '.' (s.filter (fun c => c ≠ ','))
    | _ => decValue '.' (s.filter (fun c => c ≠ ','))
  else if s.contains '.' then
    match splitOnC '.' s with
    | [_, frac] =>
      if frac.length = 3 ∨ 4 ≤ frac.length then decValue '.' (s.filter (fun c => c ≠ '.'))
      else decValue '.' s
    | parts => if 2 < parts.length then decValue '.' (s.filter (fun c => c ≠ '.'))
      else decValue '.' s
  else decValue '.' s

/-- The amended case analysis: a lone comma is a decimal separator when at
most two digits follow it; otherwise as the claim states. -/
def specParseAmountAmended (l : Str) : ℚ :=
  let s := (stripL l).filter keepMonto
  if s = [] then 0
  else if s.contains ',' ∧ s.contains '.' then
    if lastSep s = some ',' then decValue ',' (s.filter (fun c => c ≠ '.'))
    else decValue '.' (s.filter (fun c => c ≠ ','))
  else if s.contains ',' then
    match splitOnC ',' s with
    | [_, frac] =>
      if frac.length ≤ 2 then decValue ',' s
      else decValue '.' (s.filter (fun c => c ≠ ','))
    | _ => decValue '.' (s.filter (fun c => c ≠ ','))
  else if s.contains '.' then
    match splitOnC '.' s with
    | [_, frac] =>
      if frac.length = 3 ∨ 4 ≤ frac.length then decValue '.' (s.filter (fun c => c ≠ '.'))
      else decValue '.' s
    | parts => if 2 < parts.length then decValue '.' (s.filter (fun c => c ≠ '.'))
      else decValue '.' s
  else decValue '.' s

/-- Splitting the comma-to-dot image of a dot-free string on dots is
splitting the original on commas. -/
theorem splitOnC_map_comma (l : Str) (hl : l.contains '.' = false) :
    splitOnC '.' (l.map (fun c => if c = ',' then '.' else c)) = splitOnC ',' l := by
  induction l with
  | nil => rfl
  | cons a t ih =>
    have hl' : ¬ '.' = a ∧ '.' ∉ t := by simpa using hl
    have ha' : a ≠ '.' := fun h => hl'.1 h.symm
    have ht : t.contains '.' = false := by simpa using hl'.2
    by_cases ha : a = ','
    · subst ha
      simp [splitOnC, List.map_cons, ih ht]
    · simp only [List.map_cons, if_neg ha]
      simp [splitOnC, ha, ha', ih ht]

/-- `floatPy` after the comma-to-dot substitution reads the original with
the comma as decimal point. -/
theorem floatPy_map_comma (l : Str) (hl : l.contains '.' = false) :
    floatPy (l.map (fun c => if c = ',' then '.' else c)) = decValue ',' l := by
  unfold floatPy decValue
  rw [splitOnC_map_comma l hl]

/-- A filtered-out character is not contained. -/
theorem contains_filter_ne (l : Str) (x : Char) :
    (l.filter (fun c => c ≠ x)).contains x = false := by
  cases h : (l.filter (fun c => c ≠ x)).contains x
  · rfl
  · exfalso
    simp at h

/-- C4 counterexample: the claim as stated makes a lone comma followed by
one digit a thousands separator, so it assigns `"1,5"` the value 15, but
`parsear_monto_float` treats a lone comma followed by at most two digits
as the decimal separator and returns 1.5 — as the claim's own example
demands. -/
theorem c4_parse_amount_counterexample :
    parsearMontoFloat (str "1,5") = 1.5 ∧
    specParseAmountClaim (str "1,5") = 15 ∧ (1.5 : ℚ) ≠ 15 :=
  ⟨by decide, by decide, by decide⟩

/-- C4 (amended): `parse_amount` implements the claim's case analysis with
the lone-comma rule read as "decimal separator when at most two digits
follow", on every input string; and the claim's four examples hold. -/
theorem c4_parse_amount_amended :
    (∀ l : Str, parsearMontoFloat l = specParseAmountAmended l) ∧
    parsearMontoFloat (str "90.000,50") = 90000.50 ∧
    parsearMontoFloat (str "120000") = 120000 ∧
    parsearMontoFloat (str "1.234") = 1234 ∧
    parsearMontoFloat (str "1,5") = 1.5 := by
  refine ⟨?_, by decide, by decide, by decide, by decide⟩
  intro l
  unfold parsearMontoFloat specParseAmountAmended
  set s := (stripL l).filter keepMonto with hs
  clear_value s
  dsimp only
  have hdd : ∀ X : Str, decValue '.' X = floatPy X := fun _ => rfl
  by_cases h0 : s = []
  · rw [if_pos h0, if_pos h0]
  · rw [if_neg h0, if_neg h0]
    by_cases h1 : s.contains ',' = true ∧ s.contains '.' = true
    · rw [if_pos h1, if_pos h1]
      by_cases h2 : lastSep s = some ','
      · rw [if_pos h2, if_pos h2]
        exact floatPy_map_comma _ (contains_filter_ne s '.')
      · rw [if_neg h2, if_neg h2, hdd]
    · rw [if_neg h1, if_neg h1]
      by_cases h3 : s.contains ',' = true
      · rw [if_pos h3, if_pos h3]
        have hnd : s.contains '.' = false := by
          cases hd : s.contains '.'
          · rfl
          · exact absurd ⟨h3, hd⟩ h1
        cases hsp : splitOnC ',' s with
        | nil => exact absurd hsp (splitOnC_ne_nil ',' s)
        | cons p ps =>
          cases ps with
          | nil => dsimp only; rw [hdd]
          | cons q qs =>
            cases qs with
            | nil =>
              dsimp only
              by_cases h4 : q.length ≤ 2
              · rw [if_pos h4, if_pos h4]
                exact floatPy_map_comma s hnd
              · rw [if_neg h4, if_neg h4, hdd]
            | cons r rs => dsimp only; rw [hdd]
      · rw [if_neg h3, if_neg h3]
        by_cases h5 : s.contains '.' = true
        · rw [if_pos h5, if_pos h5]
          cases hsp : splitOnC '.' s with
          | nil => exact absurd hsp (splitOnC_ne_nil '.' s)
          | cons p ps =>
            cases ps with
            | nil => dsimp only; simp [hdd]
            | cons q qs =>
              cases qs with
              | nil =>
                dsimp only
                by_cases h6 : q.length = 3
                · rw [if_pos h6]
                  rw [if_pos (Or.inl h6), hdd]
                · rw [if_neg h6]
                  by_cases h7 : 4 ≤ q.length
                  · rw [if_pos h7, if_pos (Or.inr h7), hdd]
                  · rw [if_neg h7, if_neg ?hc, hdd]
                    case hc => exact fun h => h.elim h6 (fun h' => h7 h')
              | cons r rs => dsimp only; simp [hdd]
        · rw [if_neg h5, if_neg h5, hdd]

/-! ### `src/pipelines/cargar_pagos.py` — destination-account resolution -/

/-- `_norm_txt`: strip, lowercase, remove combining marks (NFD).  Accent
folding before `toLower` models Python's `lower()` on accented letters. -/
def normTxt (l : Str) : Str := ((stripL l).filterMap asciiFold).map Char.toLower

/-- `_compact_txt`: `_norm_txt` with whitespace, `-`, `.`, `/`, `(`, `)`
removed. -/
def compactTxt (l : Str) : Str :=
  (normTxt l).filter (fun c =>
    ¬ (isWS c ∨ c = '-' ∨ c = '.' ∨ c = '/' ∨ c = '(' ∨ c = ')'))

/-- `_only_digits`. -/
def onlyDigits (l : Str) : Str := l.filter Char.isDigit

/-- The `DESTINATARIOS` table. -/
def DESTINATARIOS : List (Str × List Str) :=
  [(str "Cta. Comafi",
    [str "2990000000001054390008", str "10543/9", str "30-60473101-8",
     str "30604731018", str "2900000000001054300000", str "MOZO.TAPA.ROSTRO",
     str "29900000-00001054390008"]),
   (str "Banco",
    [str "0170155120000001255595", str "155-012555/9", str "30-71631686-2",
     str "30716316862", str "cobranzas.bfb"]),
   (str "Cta. Creditia",
    [str "099-720777/6", str "0170099220000072077766", str "(000) 033600/2",
     str "0720000720000003360022", str "30-71213737-8", str "30-71789342-1",
     str "10600114736728"]),
   (str "Cta. Mins",
    [str "2990113311300150410002", str "30-71683093-0", str "30716830930"]),
   (str "Cta. RDA",
    [str "0004194-6 024-7", str "0070024520000004194671", str "33-71573296-9 "]),
   (str "Cta. Exi",
    [str "18156-5 339-3", str "0070339820000018156535", str "30-71589360-2",
     str "30-71851349-5", str "2850793630094217184081"]),
   (str "Cta. Efectivo Si",
    [str "30538006404", str "27123601659", str "0720000720000001663918",
     str "27123601659"])]

/-- `DESTINATARIOS_COMPILED`: per group, the non-empty compact forms and
the non-empty digits-only forms of its patterns. -/
def DESTINATARIOS_COMPILED : List (Str × List Str × List Str) :=
  DESTINATARIOS.map (fun d =>
    (d.1,
     (d.2.map compactTxt).filter (fun p => p ≠ []),
     (d.2.map onlyDigits).filter (fun p => p ≠ [])))

/-- Whether a compiled group matches the normalized destination text (any
compact pattern inside the compact form, or any digits pattern inside the
digits-only form); the per-group compact-then-digits scan of the source
returns the group's name exactly when this disjunction holds. -/
def grupoMatch (rawCompact rawDigits : Str) (d : Str × List Str × List Str) : Bool :=
  d.2.1.any (fun p => containsSubL rawCompact p) ||
    d.2.2.any (fun p => containsSubL rawDigits p)

/-- `resolver_cta_destino`. -/
def resolverCtaDestino (emisor destinoRaw : Str) : Str :=
  let raw := stripL destinoRaw
  if esBancoComafi emisor then str "Banco"
  else if contienePagoFacil emisor then str "Pago Facil"
  else if contieneRapipago emisor then str "Rapipago"
  else
    let rawCompact := compactTxt raw
    let rawDigits := onlyDigits raw
    match DESTINATARIOS_COMPILED.find? (grupoMatch rawCompact rawDigits) with
    | some d => d.1
    | none => raw

/-- `find?` returns the first element satisfying the test. -/
theorem find?_of_first {α : Type} (p : α → Bool) :
    ∀ (l : List α) (i : ℕ) (g : α), l.get? i = some g → p g = true →
      (∀ j gj, j < i → l.get? j = some gj → p gj = false) →
      l.find? p = some g := by
  intro l
  induction l with
  | nil => intro i g hg; simp at hg
  | cons a t ih =>
    intro i g hg hp hprev
    cases i with
    | zero =>
      simp only [List.get?_cons_zero] at hg
      cases hg
      simp [List.find?_cons, hp]
    | succ i =>
      have ha : p a = false := hprev 0 a (Nat.succ_pos i) rfl
      simp only [List.get?_cons_succ] at hg
      rw [List.find?_cons, ha]
      exact ih i g hg hp (fun j gj hj hgj => hprev (j + 1) gj (by omega) hgj)

/-- C8: the issuer checks take priority over the pattern table — a
Comafi-bank issuer yields "Banco", then Pago Facil, then Rapipago,
regardless of `destino_raw`; only when all three fail is the ordered
pattern-group table scanned, the first group with a matching substring in
the compact or digits-only normalization winning, and with no match the
trimmed `destino_raw` is returned unchanged. -/
theorem c8_resolver_cta_destino_priority (emisor destinoRaw : Str) :
    (esBancoComafi emisor = true →
      resolverCtaDestino emisor destinoRaw = str "Banco") ∧
    (esBancoComafi emisor = false → contienePagoFacil emisor = true →
      resolverCtaDestino emisor destinoRaw = str "Pago Facil") ∧
    (esBancoComafi emisor = false → contienePagoFacil emisor = false →
      contieneRapipago emisor = true →
      resolverCtaDestino emisor destinoRaw = str "Rapipago") ∧
    (esBancoComafi emisor = false → contienePagoFacil emisor = false →
      contieneRapipago emisor = false →
      ∀ i g, DESTINATARIOS_COMPILED.get? i = some g →
        grupoMatch (compactTxt (stripL destinoRaw))
          (onlyDigits (stripL destinoRaw)) g = true →
        (∀ j gj, j < i → DESTINATARIOS_COMPILED.get? j = some gj →
          grupoMatch (compactTxt (stripL destinoRaw))
            (onlyDigits (stripL destinoRaw)) gj = false) →
        resolverCtaDestino emisor destinoRaw = g.1) ∧
    (esBancoComafi emisor = false → contienePagoFacil emisor = false →
      contieneRapipago emisor = false →
      (∀ g ∈ DESTINATARIOS_COMPILED,
        grupoMatch (compactTxt (stripL destinoRaw))
          (onlyDigits (stripL destinoRaw)) g = false) →
      resolverCtaDestino emisor destinoRaw = stripL destinoRaw) := by
  refine ⟨?_, ?_, ?_, ?_, ?_⟩
  · intro h1
    unfold resolverCtaDestino
    rw [if_pos h1]
  · intro h1 h2
    unfold resolverCtaDestino
    rw [if_neg (by simp [h1]), if_pos h2]
  · intro h1 h2 h3
    unfold resolverCtaDestino
    rw [if_neg (by simp [h1]), if_neg (by simp [h2]), if_pos h3]
  · intro h1 h2 h3 i g hg hm hprev
    unfold resolverCtaDestino
    rw [if_neg (by simp [h1]), if_neg (by simp [h2]), if_neg (by simp [h3])]
    dsimp only
    rw [find?_of_first _ DESTINATARIOS_COMPILED i g hg hm hprev]
  · intro h1 h2 h3 hnone
    unfold resolverCtaDestino
    rw [if_neg (by simp [h1]), if_neg (by simp [h2]), if_neg (by simp [h3])]
    dsimp only
    rw [List.find?_eq_none.mpr (fun g hg => by simp [hnone g hg])]

/-- Witness for C8: issuer priority beats a pattern-matching destination;
the table resolves a Banco account number; an unmatched destination is
returned trimmed. -/
theorem c8_resolver_cta_destino_priority_witness :
    resolverCtaDestino (str "Banco Comafi S.A.") (str "rapipago") = str "Banco" ∧
    resolverCtaDestino (str "Pago Fácil suc. 33") (str "30-71631686-2") =
      str "Pago Facil" ∧
    resolverCtaDestino (str "RAPIPAGO") (str "MOZO.TAPA.ROSTRO") = str "Rapipago" ∧
    resolverCtaDestino (str "otro medio") (str "30-71631686-2") = str "Banco" ∧
    resolverCtaDestino (str "otro medio") (str " algo desconocido ") =
      str "algo desconocido" := by
  refine ⟨?_, ?_, ?_, ?_, ?_⟩
  · exact (c8_resolver_cta_destino_priority (str "Banco Comafi S.A.")
      (str "rapipago")).1 (by decide)
  · exact (c8_resolver_cta_destino_priority (str "Pago Fácil suc. 33")
      (str "30-71631686-2")).2.1 (by decide) (by decide)
  · exact (c8_resolver_cta_destino_priority (str "RAPIPAGO")
      (str "MOZO.TAPA.ROSTRO")).2.2.1 (by decide) (by decide) (by decide)
  · exact (c8_resolver_cta_destino_priority (str "otro medio")
      (str "30-71631686-2")).2.2.2.1 (by decide) (by decide) (by decide) 1 _ rfl
      (by decide)
      (fun j gj hj hgj => by
        interval_cases j
        · cases hgj
          decide)
  · have h := (c8_resolver_cta_destino_priority (str "otro medio")
      (str " algo desconocido ")).2.2.2.2 (by decide) (by decide) (by decide)
      (by decide)
    rw [h]
    decide

/-! ### C7 — identifier extraction -/

/-- The claim's honorarium-marker reading, exactly as stated: some
word-boundary-delimited token ends in a literal `h`/`H` (no restriction on
the token's other characters). -/
def claimTokenH (l : Str) : Bool :=
  (wordTokens l).any (fun t => t.getLast? = some 'h' ∨ t.getLast? = some 'H')

/-- Maximal digit runs of a text (helper: same scan as `searchDniAux`,
without the match logic). -/
def digitRunsGo (cur : Str) : Str → List Str
  | [] => if cur = [] then [] else [cur.reverse]
  | c :: rest =>
    if c.isDigit then digitRunsGo (c :: cur) rest
    else if cur = [] then digitRunsGo [] rest
    else cur.reverse :: digitRunsGo [] rest

/-- Maximal digit runs of a text. -/
def digitRuns (l : Str) : List Str := digitRunsGo [] l

/-- The search for a 6-12 digit group is the first maximal digit run of
length at least six, truncated to twelve digits. -/
theorem searchDniAux_eq_runs :
    ∀ (l : Str) (cur : Str),
      searchDniAux cur l =
        ((digitRunsGo cur l).find? (fun r => 6 ≤ r.length)).map (fun r => r.take 12) := by
  intro l
  induction l with
  | nil =>
    intro cur
    unfold searchDniAux digitRunsGo
    by_cases hc : cur = []
    · subst hc
      simp
    · rw [if_neg hc]
      by_cases h6 : 6 ≤ cur.length
      · rw [if_pos h6]
        simp [List.find?_cons, h6]
      · rw [if_neg h6]
        simp [List.find?_cons, h6]
  | cons c rest ih =>
    intro cur
    unfold searchDniAux digitRunsGo
    by_cases hd : c.isDigit
    · rw [if_pos hd, if_pos hd]
      exact ih (c :: cur)
    · rw [if_neg hd, if_neg hd]
      by_cases hc : cur = []
      · subst hc
        rw [if_neg (by decide : ¬ (6 ≤ ([] : Str).length)), if_pos rfl]
        exact ih []
      · rw [if_neg hc]
        by_cases h6 : 6 ≤ cur.length
        · rw [if_pos h6]
          simp [List.find?_cons, h6]
        · rw [if_neg h6]
          simp only [List.find?_cons]
          have hdec : decide (6 ≤ cur.reverse.length) = false := by simp [h6]
          rw [hdec]
          exact ih []

/-- C7 counterexample: `"1234567h"` holds a token ending in a literal `h`
at a word boundary, yet `extraer_dni_desde_archivo` does not return the
empty string — the marker regex `\b[a-z]*h\b` only matches letters-only
tokens, so it extracts `"1234567"`. -/
theorem c7_extraction_counterexample :
    claimTokenH (stripL (str "1234567h")) = true ∧
    extraerDniDesdeArchivo (str "1234567h") = str "1234567" ∧
    str "1234567" ≠ ([] : Str) :=
  ⟨by decide, by decide, by decide⟩

/-- C7 (amended): a word-boundary token made of letters only and ending in
`h`/`H` suppresses extraction; otherwise the result is the leading 6-12
digit run, else the first twelve digits of the first digit run of length
at least six, else empty — and `extraer_dni_honorario` is non-empty only
for texts that (after stripping) start with a 6-12 digit run followed by
optional whitespace and `h`/`H` at a word boundary, in which case it
returns that run. -/
theorem c7_extraction_amended :
    (∀ s : Str, hasMarcaHonorario (stripL s) = true → extraerDniDesdeArchivo s = []) ∧
    (∀ s : Str, s ≠ [] → hasMarcaHonorario (stripL s) = false →
      extraerDniDesdeArchivo s =
        (match leadingDni (stripL s) with
         | some d => d
         | none =>
           (((digitRuns (stripL s)).find? (fun r => 6 ≤ r.length)).map
             (fun r => r.take 12)).getD [])) ∧
    extraerDniDesdeArchivo (str "12345678 h receipt.pdf") = [] ∧
    extraerDniHonorario (str "12345678 h receipt.pdf") = str "12345678" ∧
    (∀ s : Str, extraerDniHonorario s ≠ [] →
      6 ≤ (((stripL s).dropWhile isWS).takeWhile Char.isDigit).length ∧
      (((stripL s).dropWhile isWS).takeWhile Char.isDigit).length ≤ 12 ∧
      extraerDniHonorario s = ((stripL s).dropWhile isWS).takeWhile Char.isDigit ∧
      ∃ c rest2,
        (((stripL s).dropWhile isWS).drop
            ((((stripL s).dropWhile isWS).takeWhile Char.isDigit).length)).dropWhile isWS
          = c :: rest2 ∧ (c = 'h' ∨ c = 'H') ∧
        (rest2 = [] ∨ ∃ c2 r3, rest2 = c2 :: r3 ∧ isWordChar c2 = false)) := by
  refine ⟨?_, ?_, by decide, by decide, ?_⟩
  · intro s h
    unfold extraerDniDesdeArchivo
    by_cases hs : s = []
    · rw [if_pos hs]
    · rw [if_neg hs]
      dsimp only
      rw [if_pos h]
  · intro s hs hm
    unfold extraerDniDesdeArchivo
    rw [if_neg hs]
    dsimp only
    rw [if_neg (by simp [hm])]
    cases hld : leadingDni (stripL s) with
    | some d => rfl
    | none =>
      dsimp only
      unfold searchDni digitRuns
      rw [searchDniAux_eq_runs]
      cases hf : (digitRunsGo [] (stripL s)).find? (fun r => 6 ≤ r.length) with
      | none => rfl
      | some r => rfl
  · intro s h
    unfold extraerDniHonorario at h ⊢
    by_cases hs : s = []
    · rw [if_pos hs] at h; exact absurd rfl h
    · rw [if_neg hs] at h ⊢
      dsimp only at h ⊢
      by_cases hlen : 6 ≤ (((stripL s).dropWhile isWS).takeWhile Char.isDigit).length ∧
          (((stripL s).dropWhile isWS).takeWhile Char.isDigit).length ≤ 12
      · rw [if_pos hlen] at h ⊢
        refine ⟨hlen.1, hlen.2, ?_⟩
        cases hdr : (((stripL s).dropWhile isWS).drop
            ((((stripL s).dropWhile isWS).takeWhile Char.isDigit).length)).dropWhile isWS with
        | nil => rw [hdr] at h; exact absurd rfl h
        | cons c rest2 =>
          rw [hdr] at h
          dsimp only at h ⊢
          by_cases hc : c = 'h' ∨ c = 'H'
          · rw [if_pos hc] at h ⊢
            cases rest2 with
            | nil => exact ⟨rfl, c, [], rfl, hc, Or.inl rfl⟩
            | cons c2 r3 =>
              dsimp only at h ⊢
              by_cases hw : isWordChar c2 = true
              · rw [if_pos hw] at h; exact absurd rfl h
              · rw [if_neg hw] at h ⊢
                exact ⟨rfl, c, c2 :: r3, rfl, hc,
                  Or.inr ⟨c2, r3, rfl, by simpa using hw⟩⟩
          · rw [if_neg hc] at h; exact absurd rfl h
      · rw [if_neg hlen] at h; exact absurd rfl h

/-- Witness for C7 at concrete inputs: a letters-token marker suppresses,
a long digit run is truncated to twelve, and the honorarium pattern
returns the leading digit run. -/
theorem c7_extraction_amended_witness :
    extraerDniDesdeArchivo (str "archivo h 123") = [] ∧
    extraerDniDesdeArchivo (str "foo 1234567890123 bar") = str "123456789012" ∧
    extraerDniHonorario (str "12345678 h") =
      ((stripL (str "12345678 h")).dropWhile isWS).takeWhile Char.isDigit := by
  refine ⟨?_, ?_, ?_⟩
  · exact c7_extraction_amended.1 (str "archivo h 123") (by decide)
  · rw [c7_extraction_amended.2.1 (str "foo 1234567890123 bar") (by decide) (by decide)]
    decide
  · exact (c7_extraction_amended.2.2.2.2 (str "12345678 h") (by decide)).2.2.1

/-! ### C5 — business-day ordinal -/

/-- Number of weekend days among days 1..`dia` of the month (the claim's
subtrahend). -/
def finDeSemanaCount (dia mes anio : ℕ) : ℕ :=
  ((List.range dia).map (· + 1)).countP
    (fun dn => decide (5 ≤ weekdayYMD ⟨anio, mes + 1, dn⟩))

/-- C5 counterexample: 2026-01-10 is a Saturday; with no holidays the code
snaps it to Monday the 12th and counts 8 business days, while the claim's
formula `d - weekends(1..d)` gives `10 - 3 = 7`. -/
theorem c5_business_day_ordinal_counterexample :
    5 ≤ weekdayYMD ⟨2026, 1, 10⟩ ∧
    calcularDiaHabilDelMes (fun _ => []) 5 10 0 2026 = some 8 ∧
    10 - finDeSemanaCount 10 0 2026 = 7 ∧ (8 : ℕ) ≠ 7 :=
  ⟨by decide, by decide, by decide, by decide⟩

/-- C5 (amended): for a valid date that falls on a weekday (Monday-Friday)
in a month none of whose days is listed as a holiday, the business-day
ordinal is the day of month minus the number of weekend days from day 1
through that day.  (On weekend days the code first snaps to the next
business day and counts through the snapped date instead.) -/
theorem c5_business_day_ordinal_amended (feriados : ℕ → List Str)
    (fuel dia mes anio : ℕ)
    (hv : 1 ≤ anio ∧ anio ≤ 9999 ∧ mes ≤ 11 ∧ 1 ≤ dia ∧
      dia ≤ daysInMonth anio (mes + 1))
    (hwd : weekdayYMD ⟨anio, mes + 1, dia⟩ < 5)
    (hfer : ∀ dn, 1 ≤ dn → dn ≤ daysInMonth anio (mes + 1) →
      (feriados anio).contains (isoYMD ⟨anio, mes + 1, dn⟩) = false)
    (hfuel : 1 ≤ fuel) :
    calcularDiaHabilDelMes feriados fuel dia mes anio =
      some (dia - finDeSemanaCount dia mes anio) := by
  cases fuel with
  | zero => omega
  | succ f =>
    unfold calcularDiaHabilDelMes
    rw [if_pos hv]
    have hbiz : esDiaHabil feriados ⟨anio, mes + 1, dia⟩ = true := by
      unfold esDiaHabil
      rw [if_neg (by omega)]
      simpa using hfer dia hv.2.2.2.1 hv.2.2.2.2
    have hsnap : proximoDiaHabilF feriados (f + 1) ⟨anio, mes + 1, dia⟩ =
        some ⟨anio, mes + 1, dia⟩ := by
      unfold proximoDiaHabilF
      rw [if_pos hbiz]
    rw [hsnap]
    dsimp only
    have hmem : ∀ dn ∈ (List.range dia).map (· + 1),
        1 ≤ dn ∧ dn ≤ daysInMonth anio (mes + 1) := by
      intro dn hdn
      obtain ⟨j, hj, rfl⟩ := List.mem_map.mp hdn
      have := List.mem_range.mp hj
      omega
    have hc1 : ((List.range dia).map (· + 1)).countP
        (fun dn => decide (weekdayYMD ⟨anio, mes + 1, dn⟩ < 5) &&
          !((feriados anio).contains (isoYMD ⟨anio, mes + 1, dn⟩))) =
        ((List.range dia).map (· + 1)).countP
        (fun dn => decide (weekdayYMD ⟨anio, mes + 1, dn⟩ < 5)) := by
      apply List.countP_congr
      intro dn hdn
      obtain ⟨h1, h2⟩ := hmem dn hdn
      have hh := hfer dn h1 h2
      simp only [Bool.and_eq_true, Bool.not_eq_true', decide_eq_true_eq, hh,
        and_true]
    have hc2 : ((List.range dia).map (· + 1)).countP
        (fun dn => decide (weekdayYMD ⟨anio, mes + 1, dn⟩ < 5)) =
        dia - finDeSemanaCount dia mes anio := by
      have hlen := List.length_eq_countP_add_countP
        (fun dn => decide (weekdayYMD ⟨anio, mes + 1, dn⟩ < 5))
        (l := (List.range dia).map (· + 1))
      have hneg : ((List.range dia).map (· + 1)).countP
          (fun dn => ¬ (decide (weekdayYMD ⟨anio, mes + 1, dn⟩ < 5))) =
          finDeSemanaCount dia mes anio := by
        apply List.countP_congr
        intro dn _
        constructor
        · intro h
          simp only [decide_eq_true_eq] at *
          omega
        · intro h
          simp only [decide_eq_true_eq] at *
          omega
      have hlist : ((List.range dia).map (· + 1)).length = dia := by simp
      unfold finDeSemanaCount at *
      omega
    rw [hc1, hc2]
    have hpos : 0 < ((List.range dia).map (· + 1)).countP
        (fun dn => decide (weekdayYMD ⟨anio, mes + 1, dn⟩ < 5)) := by
      rw [List.countP_pos_iff]
      refine ⟨dia, ?_, by simpa using hwd⟩
      exact List.mem_map.mpr ⟨dia - 1, List.mem_range.mpr (by omega), by omega⟩
    rw [hc2] at hpos
    rw [if_pos hpos]

/-- Witness for C5: Thursday 2026-01-08 in a holiday-free January gives
ordinal `8 - 2 = 6`. -/
theorem c5_business_day_ordinal_amended_witness :
    calcularDiaHabilDelMes (fun _ => []) 3 8 0 2026 =
      some (8 - finDeSemanaCount 8 0 2026) ∧
    8 - finDeSemanaCount 8 0 2026 = 6 :=
  ⟨c5_business_day_ordinal_amended (fun _ => []) 3 8 0 2026 (by decide) (by decide)
    (fun dn h1 h2 => rfl) (by decide), by decide⟩

/-! ### C9 — termination of `proximo_dia_habil` -/

/-- The `n`-th successor of a date under `nextDayYMD` (the chain the
`while` loop of `proximo_dia_habil` walks). -/
def nthDia : ℕ → DateYMD → DateYMD
  | 0, dt => dt
  | n + 1, dt => nthDia n (nextDayYMD dt)

/-- A holiday map that lists every day of every month of the queried year:
each year's holiday list is finite, yet no business day exists. -/
def feriadosSiempre (y : ℕ) : List Str :=
  (List.range 13).flatMap (fun m => (List.range 32).map (fun d =>
    zfill4 (natDigits y) ++ ['-'] ++ zfill2 (natDigits m) ++ ['-'] ++
      zfill2 (natDigits d)))

theorem daysInMonth_le31 (y m : ℕ) : daysInMonth y m ≤ 31 := by
  unfold daysInMonth
  split
  · split <;> omega
  · split <;> omega

theorem esDiaHabil_feriadosSiempre (dt : DateYMD) (h1 : dt.mes ≤ 12)
    (h2 : dt.dia ≤ 31) : esDiaHabil feriadosSiempre dt = false := by
  unfold esDiaHabil
  by_cases hw : 5 ≤ weekdayYMD dt
  · rw [if_pos hw]
  · rw [if_neg hw]
    have hmem : isoYMD dt ∈ feriadosSiempre dt.anio := by
      unfold feriadosSiempre isoYMD
      refine List.mem_flatMap.mpr ⟨dt.mes, List.mem_range.mpr (by omega), ?_⟩
      exact List.mem_map.mpr ⟨dt.dia, List.mem_range.mpr (by omega), rfl⟩
    simp [hmem]

theorem nextDayYMD_bounds (dt : DateYMD) (h1 : dt.mes ≤ 12) :
    (nextDayYMD dt).mes ≤ 12 ∧ (nextDayYMD dt).dia ≤ 31 := by
  unfold nextDayYMD
  split
  · rename_i h
    have := daysInMonth_le31 dt.anio dt.mes
    show dt.mes ≤ 12 ∧ dt.dia + 1 ≤ 31
    exact ⟨h1, by omega⟩
  · split
    · rename_i _ h
      show dt.mes + 1 ≤ 12 ∧ 1 ≤ 31
      exact ⟨by omega, by omega⟩
    · show 1 ≤ 12 ∧ 1 ≤ 31
      exact ⟨by omega, by omega⟩

theorem proximoDiaHabilF_feriadosSiempre (fuel : ℕ) :
    ∀ dt : DateYMD, dt.mes ≤ 12 → dt.dia ≤ 31 →
      proximoDiaHabilF feriadosSiempre fuel dt = none := by
  induction fuel with
  | zero => intro dt _ _; rfl
  | succ f ih =>
    intro dt h1 h2
    unfold proximoDiaHabilF
    rw [esDiaHabil_feriadosSiempre dt h1 h2]
    have hb := nextDayYMD_bounds dt h1
    simpa using ih (nextDayYMD dt) hb.1 hb.2

/-- C9 counterexample: each year's holiday set being finite does not make
the loop terminate.  `feriadosSiempre` gives every year a finite holiday
list covering every date, and from 2026-01-05 the loop never returns, no
matter how much fuel it is given. -/
theorem c9_next_business_day_counterexample :
    ¬ ∃ fuel r, proximoDiaHabilF feriadosSiempre fuel ⟨2026, 1, 5⟩ = some r := by
  rintro ⟨fuel, r, hr⟩
  rw [proximoDiaHabilF_feriadosSiempre fuel ⟨2026, 1, 5⟩ (by decide) (by decide)]
    at hr
  exact Option.noConfusion hr

/-- C9 (amended): the loop terminates exactly when some date reachable from
the input is a business day; it then returns the EARLIEST such date — the
`k`-th successor of the input where every earlier day in the chain is a
weekend day or holiday. -/
theorem c9_next_business_day_amended (feriados : ℕ → List Str) (dt : DateYMD)
    (n : ℕ) (h : esDiaHabil feriados (nthDia n dt) = true) :
    ∃ k, k ≤ n ∧
      proximoDiaHabilF feriados (n + 1) dt = some (nthDia k dt) ∧
      esDiaHabil feriados (nthDia k dt) = true ∧
      ∀ j, j < k → esDiaHabil feriados (nthDia j dt) = false := by
  induction n generalizing dt with
  | zero =>
    refine ⟨0, Nat.le_refl 0, ?_, h, fun j hj => absurd hj (by omega)⟩
    unfold proximoDiaHabilF
    rw [if_pos (show esDiaHabil feriados dt = true from h)]
    rfl
  | succ m ih =>
    by_cases hd : esDiaHabil feriados dt = true
    · refine ⟨0, Nat.zero_le _, ?_, hd, fun j hj => absurd hj (by omega)⟩
      unfold proximoDiaHabilF
      rw [if_pos hd]
      rfl
    · have hd' : esDiaHabil feriados dt = false := by
        cases hds : esDiaHabil feriados dt
        · rfl
        · exact absurd hds hd
      obtain ⟨k, hk, heq, hbiz, hmin⟩ := ih (nextDayYMD dt) h
      refine ⟨k + 1, by omega, ?_, hbiz, ?_⟩
      · unfold proximoDiaHabilF
        rw [hd']
        simpa using heq
      · intro j hj
        cases j with
        | zero => exact hd'
        | succ i => exact hmin i (by omega)

/-- Witness for C9 (amended): from Saturday 2026-01-10 with no holidays,
the loop returns the second successor, Monday 2026-01-12, and both earlier
days (Saturday and Sunday) are non-business. -/
theorem c9_next_business_day_amended_witness :
    ∃ k, k ≤ 2 ∧
      proximoDiaHabilF (fun _ => []) 3 ⟨2026, 1, 10⟩ =
        some (nthDia k ⟨2026, 1, 10⟩) ∧
      esDiaHabil (fun _ => []) (nthDia k ⟨2026, 1, 10⟩) = true ∧
      ∀ j, j < k → esDiaHabil (fun _ => []) (nthDia j ⟨2026, 1, 10⟩) = false :=
  c9_next_business_day_amended (fun _ => []) ⟨2026, 1, 10⟩ 2 (by decide)

/-! ### C6 — `get_feriados` under every remote outcome -/

/-- C6: for every year, every remote outcome (`some dates` = HTTP 200 with
those parsed dates, `none` = network failure, non-200 status or malformed
payload — all absorbed by the `try/except`) and every cache state whose
entries already contain their year's fallback, `get_feriados` (a) returns a
superset of the static fallback table for the year, (b) leaves the cache
with that same invariant, and (c) returns the empty set when the remote
source yields nothing and the year has no fallback entry.  The function is
total on all these outcomes, which is the embedding of "never raises". -/
theorem c6_get_holidays_behavior (cache : List (ℕ × List Str))
    (remote : Option (List Str)) (year : ℕ)
    (hinv : ∀ y fs, cache.lookup y = some fs →
      ∀ d ∈ feriadosFallback y, d ∈ fs) :
    (∀ d ∈ feriadosFallback year, d ∈ (getFeriados cache remote year).1) ∧
    (∀ y fs, (getFeriados cache remote year).2.lookup y = some fs →
      ∀ d ∈ feriadosFallback y, d ∈ fs) ∧
    (cache.lookup year = none → (remote = none ∨ remote = some []) →
      feriadosFallback year = [] → (getFeriados cache remote year).1 = []) := by
  unfold getFeriados
  cases hc : cache.lookup year with
  | some fs =>
    exact ⟨hinv year fs hc, hinv, fun hnone _ _ => Option.noConfusion hnone⟩
  | none =>
    dsimp only
    refine ⟨fun d hd => List.mem_append_right _ hd, ?_, ?_⟩
    · intro y fs h
      rw [List.lookup_cons] at h
      by_cases hy : y = year
      · subst hy
        simp only [beq_self_eq_true, Option.some.injEq] at h
        subst h
        exact fun d hd => List.mem_append_right _ hd
      · rw [show (y == year) = false from by simp [hy]] at h
        exact hinv y fs h
    · intro _ hrem hfb
      cases hrem with
      | inl h => subst h; simp [hfb]
      | inr h => subst h; simp [hfb]

/-- Witness for C6: empty cache, failed remote request, year 2030 (no
fallback entry): the result is empty and the invariant holds. -/
theorem c6_get_holidays_behavior_witness :
    (∀ d ∈ feriadosFallback 2030, d ∈ (getFeriados [] none 2030).1) ∧
    (∀ y fs, (getFeriados [] none 2030).2.lookup y = some fs →
      ∀ d ∈ feriadosFallback y, d ∈ fs) ∧
    ([].lookup 2030 = (none : Option (List Str)) →
      ((none : Option (List Str)) = none ∨
        (none : Option (List Str)) = some []) →
      feriadosFallback 2030 = [] → (getFeriados [] none 2030).1 = []) :=
  c6_get_holidays_behavior [] none 2030 (fun y fs h => Option.noConfusion h)

/-! ### `src/pipelines/cargar_pagos.py` — the main ingestion pipeline -/

/-- `str.upper()` restricted to ASCII (the tabulated entity names are
ASCII apart from `º`, which is caseless in Python too). -/
def upperL (l : Str) : Str := l.map Char.toUpper

/-- `ENTIDADES_CONOCIDAS` (`config.py`). -/
def ENTIDADES_CONOCIDAS : List Str :=
  [str "COMAFI", str "CREDITIA", str "EXI", str "WENANCE", str "CEIBO",
   str "GALICIA 2º", str "EFECTIVO SI", str "RDA", str "COLUMBIA", str "MINS"]

/-- `" ".join(...)`. -/
def joinBlank : List Str → Str
  | [] => []
  | [x] => x
  | x :: xs => x ++ [' '] ++ joinBlank xs

/-- `detectar_entidades` (`text.py`): the known entities contained in the
uppercased text, joined by blanks. -/
def detectarEntidades (l : Str) : Str :=
  joinBlank (ENTIDADES_CONOCIDAS.filter (fun e => containsSubL (upperL l) e))

/-- `CANAL_TO_CODE` (`config.py`); the dict literal's keys are pairwise
distinct, so a plain association list realizes it. -/
def CANAL_TO_CODE : List (Str × ℕ) :=
  [(str "banco", 2), (str "estudio", 1), (str "ctacomafi", 25),
   (str "ctacreditia", 24), (str "rapipago", 5), (str "ofcreditia", 23),
   (str "mercpago", 10), (str "pagomiscuentas", 26), (str "ctaexi", 27),
   (str "ctarda", 31), (str "pagofacil", 4), (str "efectivosi", 32),
   (str "ctaefectivosi", 33), (str "mins", 66), (str "Cta Creditia", 24),
   (str "Cta. Mins", 34), (str "cta Efetivo Si", 33), (str "Cta. Creditia", 24),
   (str "Cta. RDA", 31), (str "Banco ", 2)]

/-- `CANAL_TO_CODE.get(k, 0)`. -/
def canalCode (k : Str) : ℕ := (CANAL_TO_CODE.lookup k).getD 0

/-- `_tipo_pago`. -/
def tipoPago (valor : Str) : Str :=
  let txt := stripL (lowerL valor)
  if containsSubL txt (str "cuota") then str "Cuota"
  else if containsSubL txt (str "parcial") then str "Parcial"
  else if containsSubL txt (str "cancelación") ∨ containsSubL txt (str "cancelacion") ∨
      containsSubL txt (str "total") then str "Total"
  else if containsSubL txt (str "adelanto") then str "Adelanto/Anticipo"
  else str "No reconocido"

/-- `_codigo_tipo`. -/
def codigoTipo (tipo : Str) : Str :=
  if tipo = str "Total" then str "PGTOT"
  else if tipo = str "Adelanto/Anticipo" ∨ tipo = str "Cuota" then str "PGPREF"
  else if tipo = str "Parcial" then str "PGPR"
  else str "VER"

/-- Python `float(s)` on general cell text: surrounding blanks, an optional
sign, digits with at most one dot.  (Exponent forms, `inf`/`nan` and digit
group separators never occur in sheet amounts and are left unmodelled.)
`none` is the `ValueError` the caller's `except` turns into a skip. -/
def floatOptPy (l : Str) : Option ℚ :=
  let s := stripL l
  let p : ℚ × Str := match s with
    | '-' :: r => (-1, r)
    | '+' :: r => (1, r)
    | _ => (1, s)
  match splitOnC '.' p.2 with
  | [a] => if a ≠ [] ∧ a.all Char.isDigit then some (p.1 * natVal a) else none
  | [a, b] =>
    if (a ++ b) ≠ [] ∧ (a ++ b).all Char.isDigit then
      some (p.1 * ((natVal a : ℚ) + (natVal b : ℚ) / 10 ^ b.length))
    else none
  | _ => none

/-- The counting loop of `_contar_cuotas_pagadas` over the column indices
below the current month's `pago` column: `row_pro[k]` raises `IndexError`
past the row's end — the inner `except` catches only `ValueError` and
`TypeError`, so the error escapes to the caller's catch-all. -/
def cuotasScan (rowPro headerProLower : List Str) : List ℕ → ℕ → Except Unit ℕ
  | [], acc => .ok acc
  | k :: ks, acc =>
    if startsWithL (headerProLower.getD k []) (str "pago") then
      if rowPro.length ≤ k then .error ()
      else
        let v := floatOptPy (((rowPro.getD k []).filter (fun c => c ≠ '.')).map
          (fun c => if c = ',' then '.' else c))
        cuotasScan rowPro headerProLower ks
          (if (match v with | some x => decide (0 < x) | none => false) then acc + 1
           else acc)
    else cuotasScan rowPro headerProLower ks acc

/-- `_contar_cuotas_pagadas`. -/
def contarCuotasPagadas (rowPro headerProLower : List Str) (mesNombre : Str) :
    Except Unit ℕ :=
  match (headerProLower.enum.find? (fun kh =>
    containsSubL kh.2 (str "pago") && containsSubL kh.2 mesNombre)).map (·.1) with
  | some idx =>
    if 0 < idx then cuotasScan rowPro headerProLower (List.range idx) 0 else .ok 0
  | none => .ok 0

/-- A Python value appended to a month sheet: gspread receives either a
string or an int. -/
inductive CellV where
  | s (v : Str)
  | i (v : ℤ)
deriving DecidableEq, Repr

/-- `str(n)`. -/
def intDigits (n : ℤ) : Str :=
  if n < 0 then '-' :: natDigits (-n).toNat else natDigits n.toNat

/-- The string a written cell shows when read back (`get_all_values`
renders ints decimally). -/
def renderCellV : CellV → Str
  | .s v => v
  | .i n => intDigits n

/-- `f"{dni}|{dia}|{mes_idx}"`. -/
def claveDe (dni : Str) (dia mesIdx : ℕ) : Str :=
  dni ++ ['|'] ++ natDigits dia ++ ['|'] ++ natDigits mesIdx

/-- The `mapa_dni` dict: the last `Pro` row whose stripped third cell is
the (non-empty) DNI wins. -/
def mapaDni (dataPro : List (List Str)) (dni : Str) : Option ℕ :=
  if dni = [] then none
  else ((dataPro.enum.filter (fun ir =>
    decide (stripL (ir.2.getD 2 []) = dni))).getLast?).map (·.1)

/-- The dedup keys loaded from one month sheet's data rows. -/
def clavesExistentes (dataMes : List (List Str)) : List Str :=
  dataMes.filterMap (fun r =>
    if 2 < r.length then
      let dniE := stripL (r.getD 0 [])
      match parsearDiaMesTexto (r.getD 2 []) with
      | some dm => if dniE ≠ [] then some (claveDe dniE dm.1 dm.2) else none
      | none => none
    else none)

/-- The loop state of `ejecutar_carga_pagos`: the lazily loaded
`existing_entries`, the pending `filas_por_hoja`, the `estados` column and
the three counters. -/
structure CargaState where
  existing : List (Str × List Str)
  filas : List (Str × List (List CellV))
  estados : List Str
  cargados : ℕ
  duplicados : ℕ
  errores : ℕ
deriving Repr

/-- In-place update of one association-list entry (keys stay unique, as in
a Python dict). -/
def updAssoc {α : Type} (k : Str) (f : α → α) : List (Str × α) → List (Str × α)
  | [] => []
  | (k', v) :: rest =>
    if k' = k then (k', f v) :: rest else (k', v) :: updAssoc k f rest

/-- Outcome of the per-row pre-checks of the main loop. -/
inductive RowOutcome where
  | invalidDni
  | noPro
  | badFecha
  | ready (dni : Str) (iPro : ℕ) (f : Fecha)
deriving DecidableEq, Repr

/-- DNI extraction, `Pro` lookup and date parsing for one receipt row. -/
def analizarFila (nowYear : ℕ) (dataPro : List (List Str)) (row : List Str) :
    RowOutcome :=
  let dni := extraerDniDesdeArchivo (stripL (row.getD 0 []))
  if dni = [] then .invalidDni
  else
    match mapaDni dataPro dni with
    | none => .noPro
    | some i =>
      match parsearFechaFlexible nowYear
          (if 3 < row.length then some (row.getD 3 []) else none) with
      | none => .badFecha
      | some f => .ready dni i f

/-- Lazy creation of `existing_entries[hoja]` from the month sheet (an
absent sheet contributes no keys). -/
def ensureExisting (hojasMes : List (Str × List (List Str)))
    (existing : List (Str × List Str)) (hoja : Str) : List (Str × List Str) :=
  match existing.lookup hoja with
  | some _ => existing
  | none => existing ++ [(hoja, clavesExistentes ((hojasMes.lookup hoja).getD []))]

/-- Lazy creation of `filas_por_hoja[hoja]`. -/
def ensureFilas (filas : List (Str × List (List CellV))) (hoja : Str) :
    List (Str × List (List CellV)) :=
  match filas.lookup hoja with
  | some _ => filas
  | none => filas ++ [(hoja, [])]

/-- The 25-column `nueva_fila` built for one accepted receipt. -/
def nuevaFilaDe (feriados : ℕ → List Str) (fuel : ℕ) (row rowPro : List Str)
    (dni : Str) (f : Fecha) (cuotasPagadas : ℕ) : List CellV :=
  let montoRaw := row.getD 5 []
  let montoNum := parsearMontoFloat montoRaw
  let emisor := stripL (row.getD 2 [])
  let destinoN := resolverCtaDestino emisor (stripL (row.getD 10 []))
  let tipo0 := tipoPago (stripL (rowPro.getD 5 []))
  let tipo1 := if tipo0 = str "Total" ∧ 0 < montoNum ∧
      montoNum < parsearMontoFloat (rowPro.getD 7 []) then str "Parcial" else tipo0
  let tipo2 := if tipo1 = str "Cuota" ∧ 0 < montoNum ∧
      montoNum < parsearMontoFloat (rowPro.getD 8 []) then str "Parcial" else tipo1
  let carteraRaw := stripL (rowPro.getD 9 [])
  let diaHabil : CellV :=
    match calcularDiaHabilDelMes feriados fuel f.dia f.mesIdx f.anio with
    | some n => .i n
    | none => .s []
  let fechaFmt := formatoFechaCorta f.dia f.mesIdx
  [.s dni, .s (rowPro.getD 3 []), .s fechaFmt,
   .s (extraerSoloNumerosCrudos montoRaw), .s tipo2, .s (codigoTipo tipo2),
   .i ((cuotasPagadas : ℤ) + 1), .s (rowPro.getD 7 []),
   .s (if esBancoComafi carteraRaw then str "Comafi" else carteraRaw),
   .s [], .s [], .s (rowPro.getD 4 []), .s (detectarEntidades carteraRaw),
   .s destinoN, .s [], .s [], diaHabil, .s (rowPro.getD 8 []), .i 1, .s dni,
   .s fechaFmt, .s (limpiarMontoSinDecimales montoRaw),
   .i (canalCode (normalizeCanal destinoN) : ℤ), .s [], .s []]

/-- One accepted receipt: load the hoja's dedup set, check the key, then
either count the duplicate, fail on the `IndexError` of
`_contar_cuotas_pagadas`, or append the row and register its key. -/
def pasoCargaReady (feriados : ℕ → List Str) (fuel : ℕ)
    (headerProLower : List Str) (dataPro : List (List Str))
    (hojasMes : List (Str × List (List Str))) (st : CargaState)
    (row : List Str) (dni : Str) (iPro : ℕ) (f : Fecha) : CargaState :=
  let hoja := nombreHojaMes f.mesIdx f.anio
  let existing1 := ensureExisting hojasMes st.existing hoja
  let filas1 := ensureFilas st.filas hoja
  let clave := claveDe dni f.dia f.mesIdx
  if ((existing1.lookup hoja).getD []).contains clave then
    { existing := existing1, filas := filas1,
      estados := st.estados ++ [str "Duplicado en " ++ hoja],
      cargados := st.cargados, duplicados := st.duplicados + 1,
      errores := st.errores }
  else
    let rowPro := dataPro.getD iPro []
    match contarCuotasPagadas rowPro headerProLower
        (lowerL (MESES_ES.getD f.mesIdx [])) with
    | .error _ =>
      { existing := existing1, filas := filas1,
        estados := st.estados ++ [str "Error: list index out of range"],
        cargados := st.cargados, duplicados := st.duplicados,
        errores := st.errores + 1 }
    | .ok cuotasPagadas =>
      { existing := updAssoc hoja (fun S => S ++ [clave]) existing1,
        filas := updAssoc hoja
          (fun F => F ++ [nuevaFilaDe feriados fuel row rowPro dni f cuotasPagadas])
          filas1,
        estados := st.estados ++ [str "OK (" ++ hoja ++ str ")"],
        cargados := st.cargados + 1, duplicados := st.duplicados,
        errores := st.errores }

/-- One iteration of the main loop. -/
def pasoCarga (nowYear : ℕ) (feriados : ℕ → List Str) (fuel : ℕ)
    (headerProLower : List Str) (dataPro : List (List Str))
    (hojasMes : List (Str × List (List Str))) (st : CargaState)
    (row : List Str) : CargaState :=
  match analizarFila nowYear dataPro row with
  | .invalidDni =>
    { st with estados := st.estados ++ [str "DNI inválido en archivo"] }
  | .noPro =>
    { st with
      estados := st.estados ++ [str "No existe en PRO"],
      errores := st.errores + 1 }
  | .badFecha =>
    { st with
      estados := st.estados ++ [str "Fecha inválida"],
      errores := st.errores + 1 }
  | .ready dni iPro f =>
    pasoCargaReady feriados fuel headerProLower dataPro hojasMes st row dni iPro f

/-- `ejecutar_carga_pagos`'s row loop (the early returns for an empty
receipt sheet or an empty `Pro` skip the loop with zero statistics).
`nowYear` is `datetime.now().year`; `feriados` the holiday source;
`fuel` bounds `proximo_dia_habil`'s walk; `hojasMes` the spreadsheet's
existing month sheets (title and data rows without header). -/
def ejecutarCargaPagos (nowYear : ℕ) (feriados : ℕ → List Str) (fuel : ℕ)
    (infoData : List (List Str)) (headerPro : List Str)
    (dataPro : List (List Str)) (hojasMes : List (Str × List (List Str))) :
    CargaState :=
  if infoData = [] ∨ dataPro = [] then ⟨[], [], [], 0, 0, 0⟩
  else
    infoData.foldl
      (pasoCarga nowYear feriados fuel (headerPro.map lowerL) dataPro hojasMes)
      ⟨[], [], [], 0, 0, 0⟩

/-- The batch-write phase: `escribir_filas_mes` appends the rendered rows
after the sheet's current rows (`append_rows`), creating an absent sheet
first; sheets with no pending rows are untouched. -/
def aplicarEscrituras (hojas : List (Str × List (List Str))) :
    List (Str × List (List CellV)) → List (Str × List (List Str))
  | [] => hojas
  | (h, fs) :: rest =>
    aplicarEscrituras
      (if fs = [] then hojas
       else match hojas.lookup h with
         | some _ =>
           updAssoc h (fun rows => rows ++ fs.map (List.map renderCellV)) hojas
         | none => hojas ++ [(h, fs.map (List.map renderCellV))])
      rest

/-- The dedup keys a later run reads back from rows appended now. -/
def clavesDeFilas (F : List (List CellV)) : List Str :=
  clavesExistentes (F.map (List.map renderCellV))

/-- Does an estado record a duplicate? -/
def esDuplicadoEstado (e : Str) : Bool := startsWithL e (str "Duplicado en ")

/-- Total number of pending rows across the month sheets. -/
def totalFilas (filas : List (Str × List (List CellV))) : ℕ :=
  (filas.map (fun p => p.2.length)).sum

def cargaInfoEj : List (List Str) :=
  [[str "12345678 recibo.pdf", [], [], str "07/02/2026", [], str "100"],
   [str "12345678 otra.pdf", [], [], str "7-2-26", [], str "100"]]

def cargaProEj : List (List Str) := [[[], [], str "12345678"]]

example :
    (ejecutarCargaPagos 2026 (fun _ => []) 5 cargaInfoEj [] cargaProEj []).estados =
      [str "OK (Febrero 26)", str "Duplicado en Febrero 26"] := by decide

example :
    (ejecutarCargaPagos 2026 (fun _ => []) 5 cargaInfoEj [] cargaProEj []).cargados = 1 ∧
    (ejecutarCargaPagos 2026 (fun _ => []) 5 cargaInfoEj [] cargaProEj []).duplicados = 1 ∧
    (ejecutarCargaPagos 2026 (fun _ => []) 5 cargaInfoEj [] cargaProEj []).errores = 0 := by
  decide

example :
    (ejecutarCargaPagos 2026 (fun _ => []) 5 cargaInfoEj [] cargaProEj
      [(str "Febrero 26", [[str "12345678", [], str "07-feb"]])]).cargados = 0 ∧
    (ejecutarCargaPagos 2026 (fun _ => []) 5 cargaInfoEj [] cargaProEj
      [(str "Febrero 26", [[str "12345678", [], str "07-feb"]])]).duplicados = 2 := by
  decide

/-! ### Association-list lemmas for the loop state -/

theorem lookup_append_assoc {α : Type} (l m : List (Str × α)) (k : Str) :
    (l ++ m).lookup k = match l.lookup k with
      | some v => some v
      | none => m.lookup k := by
  induction l with
  | nil => rfl
  | cons p l ih =>
    obtain ⟨k', v⟩ := p
    by_cases h : k = k'
    · subst h
      simp [List.lookup]
    · simp only [List.cons_append, List.lookup]
      rw [show (k == k') = false by simp [h]]
      exact ih

theorem lookup_cons_self {α : Type} (k : Str) (v : α) (m : List (Str × α)) :
    ((k, v) :: m).lookup k = some v := by
  simp [List.lookup]

theorem lookup_cons_ne {α : Type} {k k0 : Str} (v : α) (m : List (Str × α))
    (h : ¬ k = k0) : ((k0, v) :: m).lookup k = m.lookup k := by
  simp only [List.lookup]
  rw [show (k == k0) = false by simp [h]]

theorem lookup_updAssoc {α : Type} (k : Str) (f : α → α) (m : List (Str × α))
    (k' : Str) :
    (updAssoc k f m).lookup k' =
      if k' = k then (m.lookup k).map f else m.lookup k' := by
  induction m with
  | nil =>
    by_cases h : k' = k
    · simp [updAssoc, List.lookup, h]
    · simp [updAssoc, List.lookup, h]
  | cons p m ih =>
    obtain ⟨k0, v⟩ := p
    unfold updAssoc
    by_cases h0 : k0 = k
    · rw [if_pos h0]
      by_cases h1 : k' = k0
      · rw [h1, lookup_cons_self, if_pos h0, ← h0, lookup_cons_self]
        rfl
      · have h2 : ¬ k' = k := fun he => h1 (he.trans h0.symm)
        rw [lookup_cons_ne _ _ h1, if_neg h2, lookup_cons_ne _ _ h1]
    · rw [if_neg h0]
      by_cases h1 : k' = k0
      · rw [h1, lookup_cons_self, if_neg h0, lookup_cons_self]
      · rw [lookup_cons_ne _ _ h1, lookup_cons_ne _ _ h1, ih]
        by_cases h2 : k' = k
        · rw [if_pos h2, if_pos h2,
            lookup_cons_ne _ _ (show ¬ k = k0 from fun he => h0 he.symm)]
        · rw [if_neg h2, if_neg h2]

theorem lookup_snoc_self {α : Type} (m : List (Str × α)) (k : Str) (v : α)
    (h : m.lookup k = none) : (m ++ [(k, v)]).lookup k = some v := by
  rw [lookup_append_assoc, h]
  simp [lookup_cons_self]

theorem lookup_snoc_other {α : Type} (m : List (Str × α)) (k k' : Str) (v : α)
    (h : ¬ k' = k) : (m ++ [(k, v)]).lookup k' = m.lookup k' := by
  rw [lookup_append_assoc]
  cases hy : m.lookup k' with
  | some S => rfl
  | none =>
    dsimp only
    rw [lookup_cons_ne _ _ h]
    rfl

theorem lookup_ensureExisting_self (hm : List (Str × List (List Str)))
    (ex : List (Str × List Str)) (hoja : Str) :
    (ensureExisting hm ex hoja).lookup hoja =
      some ((ex.lookup hoja).getD
        (clavesExistentes ((hm.lookup hoja).getD []))) := by
  unfold ensureExisting
  cases h : ex.lookup hoja with
  | some S => rw [h]; rfl
  | none => rw [lookup_snoc_self _ _ _ h]; rfl

theorem lookup_ensureExisting_ne (hm : List (Str × List (List Str)))
    (ex : List (Str × List Str)) (hoja h' : Str) (h : ¬ h' = hoja) :
    (ensureExisting hm ex hoja).lookup h' = ex.lookup h' := by
  unfold ensureExisting
  cases hx : ex.lookup hoja with
  | some S => rfl
  | none => exact lookup_snoc_other _ _ _ _ h

theorem lookup_ensureFilas_self (fl : List (Str × List (List CellV)))
    (hoja : Str) :
    (ensureFilas fl hoja).lookup hoja = some ((fl.lookup hoja).getD []) := by
  unfold ensureFilas
  cases h : fl.lookup hoja with
  | some S => rw [h]; rfl
  | none => rw [lookup_snoc_self _ _ _ h]; rfl

theorem lookup_ensureFilas_ne (fl : List (Str × List (List CellV)))
    (hoja h' : Str) (h : ¬ h' = hoja) :
    (ensureFilas fl hoja).lookup h' = fl.lookup h' := by
  unfold ensureFilas
  cases hx : fl.lookup hoja with
  | some S => rfl
  | none => exact lookup_snoc_other _ _ _ _ h

theorem totalFilas_ensureFilas (m : List (Str × List (List CellV)))
    (hoja : Str) : totalFilas (ensureFilas m hoja) = totalFilas m := by
  unfold ensureFilas
  cases m.lookup hoja with
  | some S => rfl
  | none => simp [totalFilas]

theorem totalFilas_updAssoc (hoja : Str) (x : List CellV)
    (m : List (Str × List (List CellV))) (h : (m.lookup hoja).isSome = true) :
    totalFilas (updAssoc hoja (fun F => F ++ [x]) m) = totalFilas m + 1 := by
  induction m with
  | nil => simp [List.lookup] at h
  | cons p m ih =>
    obtain ⟨k0, v⟩ := p
    unfold updAssoc
    by_cases h0 : k0 = hoja
    · rw [if_pos h0]
      simp [totalFilas]
      omega
    · rw [if_neg h0]
      rw [lookup_cons_ne _ _ (fun he => h0 he.symm)] at h
      have := ih h
      simp only [totalFilas, List.map, List.sum_cons] at this ⊢
      omega

/-! ### Digit strings, stripping, and the `DD-mmm` roundtrip -/

theorem isDigit_not_ws (c : Char) (h : c.isDigit = true) : isWS c = false := by
  simp only [Char.isDigit, Bool.and_eq_true, decide_eq_true_eq] at h
  obtain ⟨h1, h2⟩ := h
  simp only [isWS, Char.isWhitespace, Bool.or_eq_false_iff,
    decide_eq_false_iff_not]
  refine ⟨⟨⟨?_, ?_⟩, ?_⟩, ?_⟩ <;> (rintro rfl; revert h1; decide)

theorem dropWhile_no_ws (l : Str) (h : ∀ c ∈ l, isWS c = false) :
    l.dropWhile isWS = l := by
  cases l with
  | nil => rfl
  | cons a t =>
    rw [List.dropWhile_cons, h a (List.mem_cons_self a t)]
    simp

theorem stripL_no_ws (l : Str) (h : ∀ c ∈ l, isWS c = false) : stripL l = l := by
  unfold stripL
  rw [dropWhile_no_ws l h,
    dropWhile_no_ws _ (fun c hc => h c (List.mem_reverse.mp hc)),
    List.reverse_reverse]

theorem stripL_digits (l : Str) (h : l.all Char.isDigit = true) : stripL l = l :=
  stripL_no_ws l (fun c hc => isDigit_not_ws c (by
    have := List.all_eq_true.mp h c hc
    simpa using this))

theorem all_takeWhile_digits (l : Str) :
    (l.takeWhile Char.isDigit).all Char.isDigit = true := by
  induction l with
  | nil => rfl
  | cons a t ih =>
    rw [List.takeWhile_cons]
    cases h : a.isDigit
    · rfl
    · simpa [h] using ih

theorem all_take_reverse_digits (cur : Str) (h : cur.all Char.isDigit = true)
    (n : ℕ) : ((cur.reverse.take n).all Char.isDigit) = true := by
  rw [List.all_eq_true] at h ⊢
  intro x hx
  exact h x (List.mem_reverse.mp (List.take_subset _ _ hx))

theorem leadingDni_digits (l d : Str) (h : leadingDni l = some d) :
    d.all Char.isDigit = true := by
  unfold leadingDni at h
  dsimp only at h
  split at h
  · split at h
    · injection h with h
      subst h
      exact all_takeWhile_digits _
    · split at h
      · simp at h
      · injection h with h
        subst h
        exact all_takeWhile_digits _
  · simp at h

theorem searchDniAux_digits (l : Str) :
    ∀ cur, cur.all Char.isDigit = true →
      ∀ d, searchDniAux cur l = some d → d.all Char.isDigit = true := by
  induction l with
  | nil =>
    intro cur hc d h
    unfold searchDniAux at h
    split at h
    · injection h with h
      subst h
      exact all_take_reverse_digits cur hc 12
    · simp at h
  | cons c rest ih =>
    intro cur hc d h
    unfold searchDniAux at h
    split at h
    · refine ih (c :: cur) ?_ d h
      rename_i hdig
      simpa [hdig] using hc
    · split at h
      · injection h with h
        subst h
        exact all_take_reverse_digits cur hc 12
      · exact ih [] rfl d h

theorem extraerDni_digits (l : Str) :
    (extraerDniDesdeArchivo l).all Char.isDigit = true := by
  unfold extraerDniDesdeArchivo
  by_cases h0 : l = []
  · simp [h0]
  · rw [if_neg h0]
    dsimp only
    by_cases h1 : hasMarcaHonorario (stripL l) = true
    · simp [h1]
    · rw [if_neg h1]
      cases hL : leadingDni (stripL l) with
      | some d => exact leadingDni_digits _ d hL
      | none =>
        cases hS : searchDni (stripL l) with
        | some d =>
          unfold searchDni at hS
          exact searchDniAux_digits _ [] rfl d hS
        | none => rfl

theorem parsearDiaMes_roundtrip :
    ∀ d, d < 32 → ∀ m, m < 12 → 1 ≤ d →
      parsearDiaMesTexto (formatoFechaCorta d m) = some (d, m) := by decide

/-! ### Bounds carried by parsed dates -/

theorem indexOf?_lt_length' {α : Type} [BEq α] (a : α) (l : List α) (i : ℕ)
    (h : l.indexOf? a = some i) : i < l.length := by
  unfold List.indexOf? at h
  exact (List.findIdx?_eq_some_iff_findIdx_eq.mp h).1

theorem parseDMY_valid (s : Str) (f : Fecha) (h : parseDMY s = some f) :
    1 ≤ f.dia ∧ f.dia ≤ 31 ∧ f.mesIdx ≤ 11 := by
  unfold parseDMY at h
  dsimp only at h
  repeat split at h
  all_goals first
    | (injection h with h; subst h; dsimp only; omega)
    | simp at h

theorem parseISO_valid (s : Str) (f : Fecha) (h : parseISO s = some f) :
    1 ≤ f.dia ∧ f.dia ≤ 31 ∧ f.mesIdx ≤ 11 := by
  unfold parseISO at h
  dsimp only at h
  repeat split at h
  all_goals first
    | (injection h with h; subst h; dsimp only; omega)
    | simp at h

theorem parseCompactISO_valid (s : Str) (f : Fecha)
    (h : parseCompactISO s = some f) :
    1 ≤ f.dia ∧ f.dia ≤ 31 ∧ f.mesIdx ≤ 11 := by
  unfold parseCompactISO at h
  dsimp only at h
  split at h
  · split at h
    · injection h with h
      subst h
      dsimp only
      rename_i hc
      have := daysInMonth_le31 (natVal (s.take 4)) (natVal ((s.drop 4).take 2))
      omega
    · simp at h
  · simp at h

theorem parsearDiaMesTexto_valid (l : Str) (d m : ℕ)
    (h : parsearDiaMesTexto l = some (d, m)) : 1 ≤ d ∧ d ≤ 31 ∧ m ≤ 11 := by
  unfold parsearDiaMesTexto at h
  dsimp only at h
  split at h
  · split at h
    · simp at h
    · split at h
      · rename_i dia _ mesIdx heq
        split at h
        · injection h with h
          rw [Prod.mk.injEq] at h
          obtain ⟨hd, hm⟩ := h
          subst hd
          subst hm
          have hlt := indexOf?_lt_length' _ _ _ heq
          have hlen : MESES_ABREV.length = 12 := rfl
          rename_i hc
          omega
        · simp at h
      · simp at h
  · simp at h

theorem parsearFechaFlexible_valid (ny : ℕ) (v : Option Str) (f : Fecha)
    (h : parsearFechaFlexible ny v = some f) :
    1 ≤ f.dia ∧ f.dia ≤ 31 ∧ f.mesIdx ≤ 11 := by
  unfold parsearFechaFlexible at h
  split at h
  · simp at h
  · dsimp only at h
    split at h
    · simp at h
    · split at h
      · rename_i f1 heq
        injection h with h
        subst h
        exact parseDMY_valid _ _ heq
      · split at h
        · rename_i f1 heq
          injection h with h
          subst h
          exact parseISO_valid _ _ heq
        · split at h
          · rename_i dm heq
            injection h with h
            subst h
            obtain ⟨h1, h2, h3⟩ := parsearDiaMesTexto_valid _ _ _ heq
            exact ⟨h1, h2, h3⟩
          · exact parseCompactISO_valid _ _ h

/-! ### The dedup invariant of the ingestion loop -/

/-- The dedup keys already stored on a month sheet. -/
def storedClaves (hojasMes : List (Str × List (List Str))) (hoja : Str) :
    List Str :=
  clavesExistentes ((hojasMes.lookup hoja).getD [])

/-- Per-sheet invariant: the lazily built dedup set holds exactly the
stored keys plus the keys of the rows appended so far, those appended keys
are pairwise distinct, and none of them collides with a stored key. -/
def cargaInvHoja (hojasMes : List (Str × List (List Str)))
    (ex : List (Str × List Str)) (fl : List (Str × List (List CellV)))
    (hoja : Str) : Prop :=
  match ex.lookup hoja, fl.lookup hoja with
  | none, none => True
  | some S, some F =>
      (∀ k, k ∈ S ↔ (k ∈ storedClaves hojasMes hoja ∨ k ∈ clavesDeFilas F)) ∧
      (clavesDeFilas F).Nodup ∧
      (∀ k ∈ clavesDeFilas F, k ∉ storedClaves hojasMes hoja)
  | _, _ => False

/-- Loop invariant: every sheet's dedup invariant, the duplicate counter
equals the number of `Duplicado en …` estados, and the loaded counter
equals the number of pending rows. -/
def cargaInv (hojasMes : List (Str × List (List Str))) (st : CargaState) :
    Prop :=
  (∀ hoja, cargaInvHoja hojasMes st.existing st.filas hoja) ∧
  st.duplicados = st.estados.countP esDuplicadoEstado ∧
  st.cargados = totalFilas st.filas

theorem countP_snoc (l : List Str) (x : Str) (p : Str → Bool) :
    (l ++ [x]).countP p = l.countP p + if p x then 1 else 0 := by
  rw [List.countP_append]
  congr 1
  rw [List.countP_cons]
  simp [List.countP_nil]

theorem startsWithL_append (p t : Str) : startsWithL (p ++ t) p = true := by
  induction p with
  | nil => cases t <;> rfl
  | cons a p ih => simp [startsWithL, ih]

theorem esDup_dupEstado (hoja : Str) :
    esDuplicadoEstado (str "Duplicado en " ++ hoja) = true :=
  startsWithL_append (str "Duplicado en ") hoja

theorem esDup_ok (hoja : Str) :
    esDuplicadoEstado (str "OK (" ++ hoja ++ str ")") = false := rfl

theorem esDup_invalidDni :
    esDuplicadoEstado (str "DNI inválido en archivo") = false := rfl

theorem esDup_noPro : esDuplicadoEstado (str "No existe en PRO") = false := rfl

theorem esDup_badFecha : esDuplicadoEstado (str "Fecha inválida") = false := rfl

theorem esDup_err :
    esDuplicadoEstado (str "Error: list index out of range") = false := rfl

theorem clavesDeFilas_nil : clavesDeFilas [] = [] := rfl

theorem clavesDeFilas_append (F G : List (List CellV)) :
    clavesDeFilas (F ++ G) = clavesDeFilas F ++ clavesDeFilas G := by
  unfold clavesDeFilas clavesExistentes
  rw [List.map_append, List.filterMap_append]

theorem clavesDeFilas_nueva (feriados : ℕ → List Str) (fuel : ℕ)
    (row rowPro : List Str) (dni : Str) (f : Fecha) (cuotas : ℕ)
    (hdni : dni ≠ []) (hdig : dni.all Char.isDigit = true)
    (h1 : 1 ≤ f.dia) (h2 : f.dia ≤ 31) (h3 : f.mesIdx ≤ 11) :
    clavesDeFilas [nuevaFilaDe feriados fuel row rowPro dni f cuotas] =
      [claveDe dni f.dia f.mesIdx] := by
  have hrt := parsearDiaMes_roundtrip f.dia (by omega) f.mesIdx (by omega) h1
  have hst := stripL_digits dni hdig
  unfold clavesDeFilas clavesExistentes nuevaFilaDe
  dsimp only
  simp [List.filterMap, renderCellV, hrt, hst, hdni]

theorem cargaInvHoja_ensure (hojasMes : List (Str × List (List Str)))
    (ex : List (Str × List Str)) (fl : List (Str × List (List CellV)))
    (hoja h' : Str) (hh : cargaInvHoja hojasMes ex fl h') :
    cargaInvHoja hojasMes (ensureExisting hojasMes ex hoja)
      (ensureFilas fl hoja) h' := by
  by_cases hne : h' = hoja
  · subst hne
    unfold cargaInvHoja at hh ⊢
    rw [lookup_ensureExisting_self, lookup_ensureFilas_self]
    cases hx : ex.lookup h' with
    | some S =>
      cases hy : fl.lookup h' with
      | some F =>
        rw [hx, hy] at hh
        exact hh
      | none =>
        rw [hx, hy] at hh
        exact absurd hh (by simp)
    | none =>
      cases hy : fl.lookup h' with
      | some F =>
        rw [hx, hy] at hh
        exact absurd hh (by simp)
      | none =>
        dsimp only [Option.getD]
        refine ⟨fun k => ?_, by simp [clavesDeFilas_nil], by simp [clavesDeFilas_nil]⟩
        simp only [clavesDeFilas_nil, List.not_mem_nil, or_false, storedClaves]
        exact Iff.rfl
  · unfold cargaInvHoja at hh ⊢
    rw [lookup_ensureExisting_ne _ _ _ _ hne, lookup_ensureFilas_ne _ _ _ hne]
    exact hh

theorem analizarFila_ready (nowYear : ℕ) (dataPro : List (List Str))
    (row : List Str) (dni : Str) (iPro : ℕ) (f : Fecha)
    (h : analizarFila nowYear dataPro row = .ready dni iPro f) :
    dni = extraerDniDesdeArchivo (stripL (row.getD 0 [])) ∧ dni ≠ [] ∧
      parsearFechaFlexible nowYear
        (if 3 < row.length then some (row.getD 3 []) else none) = some f := by
  unfold analizarFila at h
  dsimp only at h
  by_cases hne : extraerDniDesdeArchivo (stripL (row.getD 0 [])) = []
  · rw [if_pos hne] at h
    simp at h
  · rw [if_neg hne] at h
    cases hm : mapaDni dataPro (extraerDniDesdeArchivo (stripL (row.getD 0 []))) with
    | none =>
      rw [hm] at h
      simp at h
    | some i =>
      rw [hm] at h
      cases hp : parsearFechaFlexible nowYear
          (if 3 < row.length then some (row.getD 3 []) else none) with
      | none =>
        rw [hp] at h
        simp at h
      | some f1 =>
        rw [hp] at h
        simp only [RowOutcome.ready.injEq] at h
        obtain ⟨h1, _, h3⟩ := h
        subst h1
        subst h3
        exact ⟨rfl, hne, rfl⟩

theorem pasoCargaReady_inv (feriados : ℕ → List Str) (fuel : ℕ)
    (headerProLower : List Str) (dataPro : List (List Str))
    (hojasMes : List (Str × List (List Str))) (st : CargaState)
    (row : List Str) (dni : Str) (iPro : ℕ) (f : Fecha)
    (hdni : dni ≠ []) (hdig : dni.all Char.isDigit = true)
    (h1 : 1 ≤ f.dia) (h2 : f.dia ≤ 31) (h3 : f.mesIdx ≤ 11)
    (hinv : cargaInv hojasMes st) :
    cargaInv hojasMes (pasoCargaReady feriados fuel headerProLower dataPro
      hojasMes st row dni iPro f) := by
  obtain ⟨hH, hD, hC⟩ := hinv
  unfold pasoCargaReady
  dsimp only
  by_cases hdup : (((ensureExisting hojasMes st.existing
      (nombreHojaMes f.mesIdx f.anio)).lookup
        (nombreHojaMes f.mesIdx f.anio)).getD []).contains
      (claveDe dni f.dia f.mesIdx) = true
  · rw [if_pos hdup]
    refine ⟨fun h' => cargaInvHoja_ensure _ _ _ _ _ (hH h'), ?_, ?_⟩
    · dsimp only
      rw [countP_snoc, esDup_dupEstado]
      simp [hD]
    · dsimp only
      rw [totalFilas_ensureFilas]
      exact hC
  · rw [if_neg hdup]
    cases hcc : contarCuotasPagadas (dataPro.getD iPro []) headerProLower
        (lowerL (MESES_ES.getD f.mesIdx [])) with
    | error e =>
      refine ⟨fun h' => cargaInvHoja_ensure _ _ _ _ _ (hH h'), ?_, ?_⟩
      · dsimp only
        rw [countP_snoc, esDup_err]
        simp [hD]
      · dsimp only
        rw [totalFilas_ensureFilas]
        exact hC
    | ok cuotas =>
      have hclave : claveDe dni f.dia f.mesIdx ∉
          ((st.existing.lookup (nombreHojaMes f.mesIdx f.anio)).getD
            (clavesExistentes
              ((hojasMes.lookup (nombreHojaMes f.mesIdx f.anio)).getD []))) := by
        rw [lookup_ensureExisting_self] at hdup
        simpa using hdup
      refine ⟨fun h' => ?_, ?_, ?_⟩
      · have hbase := cargaInvHoja_ensure hojasMes st.existing st.filas
          (nombreHojaMes f.mesIdx f.anio) h' (hH h')
        by_cases hne : h' = nombreHojaMes f.mesIdx f.anio
        · subst hne
          unfold cargaInvHoja at hbase ⊢
          rw [lookup_ensureExisting_self, lookup_ensureFilas_self] at hbase
          obtain ⟨hiff, hnd, hdisj⟩ := hbase
          dsimp only
          rw [lookup_updAssoc, if_pos rfl, lookup_updAssoc, if_pos rfl,
            lookup_ensureExisting_self, lookup_ensureFilas_self]
          dsimp only [Option.map]
          rw [clavesDeFilas_append,
            clavesDeFilas_nueva feriados fuel row (dataPro.getD iPro []) dni f
              cuotas hdni hdig h1 h2 h3]
          have hnotin : claveDe dni f.dia f.mesIdx ∉
              clavesDeFilas ((st.filas.lookup
                (nombreHojaMes f.mesIdx f.anio)).getD []) :=
            fun hin => hclave ((hiff _).mpr (Or.inr hin))
          refine ⟨fun k => ?_, ?_, ?_⟩
          · rw [List.mem_append, List.mem_singleton, hiff k, List.mem_append,
              List.mem_singleton]
            tauto
          · rw [List.nodup_append]
            refine ⟨hnd, List.nodup_singleton _, ?_⟩
            intro a ha hb
            rw [List.mem_singleton] at hb
            subst hb
            exact hnotin ha
          · intro k hk
            rw [List.mem_append, List.mem_singleton] at hk
            cases hk with
            | inl hold => exact hdisj k hold
            | inr hnew =>
              subst hnew
              exact fun hst => hclave ((hiff _).mpr (Or.inl hst))
        · unfold cargaInvHoja at hbase ⊢
          dsimp only
          rw [lookup_updAssoc, if_neg hne, lookup_updAssoc, if_neg hne]
          exact hbase
      · dsimp only
        rw [countP_snoc, esDup_ok]
        simp [hD]
      · dsimp only
        rw [totalFilas_updAssoc _ _ _ (by rw [lookup_ensureFilas_self]; rfl),
          totalFilas_ensureFilas]
        omega

theorem pasoCarga_inv (nowYear : ℕ) (feriados : ℕ → List Str) (fuel : ℕ)
    (headerProLower : List Str) (dataPro : List (List Str))
    (hojasMes : List (Str × List (List Str))) (st : CargaState)
    (row : List Str) (hinv : cargaInv hojasMes st) :
    cargaInv hojasMes
      (pasoCarga nowYear feriados fuel headerProLower dataPro hojasMes st row) := by
  obtain ⟨hH, hD, hC⟩ := hinv
  unfold pasoCarga
  cases hA : analizarFila nowYear dataPro row with
  | invalidDni =>
    refine ⟨fun h' => hH h', ?_, hC⟩
    dsimp only
    rw [countP_snoc, esDup_invalidDni]
    simp [hD]
  | noPro =>
    refine ⟨fun h' => hH h', ?_, hC⟩
    dsimp only
    rw [countP_snoc, esDup_noPro]
    simp [hD]
  | badFecha =>
    refine ⟨fun h' => hH h', ?_, hC⟩
    dsimp only
    rw [countP_snoc, esDup_badFecha]
    simp [hD]
  | ready dni iPro f =>
    obtain ⟨hdniEq, hdni, hp⟩ := analizarFila_ready _ _ _ _ _ _ hA
    obtain ⟨h1, h2, h3⟩ := parsearFechaFlexible_valid _ _ _ hp
    exact pasoCargaReady_inv feriados fuel headerProLower dataPro hojasMes st
      row dni iPro f hdni (by rw [hdniEq]; exact extraerDni_digits _) h1 h2 h3
      ⟨hH, hD, hC⟩

theorem foldl_carga_inv (nowYear : ℕ) (feriados : ℕ → List Str) (fuel : ℕ)
    (headerProLower : List Str) (dataPro : List (List Str))
    (hojasMes : List (Str × List (List Str))) :
    ∀ (rows : List (List Str)) (st : CargaState), cargaInv hojasMes st →
      cargaInv hojasMes (rows.foldl
        (pasoCarga nowYear feriados fuel headerProLower dataPro hojasMes) st) := by
  intro rows
  induction rows with
  | nil => intro st h; exact h
  | cons r rest ih =>
    intro st h
    exact ih _ (pasoCarga_inv _ _ _ _ _ _ _ _ h)

theorem cargaInv_init (hojasMes : List (Str × List (List Str))) :
    cargaInv hojasMes ⟨[], [], [], 0, 0, 0⟩ := by
  refine ⟨fun hoja => ?_, rfl, rfl⟩
  unfold cargaInvHoja
  exact trivial

theorem aplicarEscrituras_extends (fs : List (Str × List (List CellV))) :
    ∀ (hojas : List (Str × List (List Str))) (t : Str) (R : List (List Str)),
      hojas.lookup t = some R →
      ∃ tl, (aplicarEscrituras hojas fs).lookup t = some (R ++ tl) := by
  induction fs with
  | nil =>
    intro hojas t R h
    exact ⟨[], by simpa using h⟩
  | cons p rest ih =>
    obtain ⟨h0, F⟩ := p
    intro hojas t R h
    unfold aplicarEscrituras
    by_cases hF : F = []
    · rw [if_pos hF]
      exact ih hojas t R h
    · rw [if_neg hF]
      cases hx : hojas.lookup h0 with
      | some rows =>
        by_cases ht : t = h0
        · subst ht
          rw [h] at hx
          injection hx with hx
          subst hx
          obtain ⟨tl, htl⟩ := ih
            (updAssoc t (fun rows => rows ++ F.map (List.map renderCellV)) hojas)
            t (R ++ F.map (List.map renderCellV))
            (by rw [lookup_updAssoc, if_pos rfl, h]; rfl)
          exact ⟨F.map (List.map renderCellV) ++ tl,
            by rw [htl, List.append_assoc]⟩
        · exact ih _ t R (by rw [lookup_updAssoc, if_neg ht]; exact h)
      | none =>
        by_cases ht : t = h0
        · subst ht
          rw [h] at hx
          exact absurd hx (by simp)
        · exact ih _ t R (by rw [lookup_snoc_other _ _ _ _ ht]; exact h)

/-- C3: the ingestion pipeline preserves the per-period uniqueness
invariant.  (1) In the final loop state, the dedup keys of the rows
appended to any month sheet are pairwise distinct and disjoint from the
keys already stored on that sheet — so a receipt occurring twice in one
run, or already stored, yields at most one appended row.  (2) The
duplicate counter equals the number of `Duplicado en …` estados (each
duplicate ingestion increments it exactly once) and the `cargados` counter
equals the number of appended rows.  (3) Ingesting a receipt whose key is
already present (stored on the sheet or registered earlier in the run)
leaves every pending row and every dedup set unchanged, appends nothing,
adds the single `Duplicado en …` estado and increments only the duplicate
counter — the existing entry is never overwritten.  (4) The batch write
phase only appends: the rows a sheet held before the run remain a prefix
of its final rows. -/
theorem c3_dedup_invariant (nowYear : ℕ) (feriados : ℕ → List Str) (fuel : ℕ)
    (infoData : List (List Str)) (headerPro : List Str)
    (dataPro : List (List Str)) (hojasMes : List (Str × List (List Str))) :
    (∀ hoja F,
      (ejecutarCargaPagos nowYear feriados fuel infoData headerPro dataPro
        hojasMes).filas.lookup hoja = some F →
      (clavesDeFilas F).Nodup ∧
      ∀ k ∈ clavesDeFilas F, k ∉ storedClaves hojasMes hoja) ∧
    ((ejecutarCargaPagos nowYear feriados fuel infoData headerPro dataPro
        hojasMes).duplicados =
      (ejecutarCargaPagos nowYear feriados fuel infoData headerPro dataPro
        hojasMes).estados.countP esDuplicadoEstado ∧
     (ejecutarCargaPagos nowYear feriados fuel infoData headerPro dataPro
        hojasMes).cargados =
      totalFilas (ejecutarCargaPagos nowYear feriados fuel infoData headerPro
        dataPro hojasMes).filas) ∧
    (∀ st row dni iPro f,
      analizarFila nowYear dataPro row = .ready dni iPro f →
      (((ensureExisting hojasMes st.existing
          (nombreHojaMes f.mesIdx f.anio)).lookup
            (nombreHojaMes f.mesIdx f.anio)).getD []).contains
        (claveDe dni f.dia f.mesIdx) = true →
      pasoCarga nowYear feriados fuel (headerPro.map lowerL) dataPro hojasMes
          st row =
        { existing := ensureExisting hojasMes st.existing
            (nombreHojaMes f.mesIdx f.anio),
          filas := ensureFilas st.filas (nombreHojaMes f.mesIdx f.anio),
          estados := st.estados ++
            [str "Duplicado en " ++ nombreHojaMes f.mesIdx f.anio],
          cargados := st.cargados, duplicados := st.duplicados + 1,
          errores := st.errores }) ∧
    (∀ t R, hojasMes.lookup t = some R →
      ∃ tl, (aplicarEscrituras hojasMes
        (ejecutarCargaPagos nowYear feriados fuel infoData headerPro dataPro
          hojasMes).filas).lookup t = some (R ++ tl)) := by
  have hinv : cargaInv hojasMes
      (ejecutarCargaPagos nowYear feriados fuel infoData headerPro dataPro
        hojasMes) := by
    unfold ejecutarCargaPagos
    split
    · exact cargaInv_init hojasMes
    · exact foldl_carga_inv nowYear feriados fuel (headerPro.map lowerL)
        dataPro hojasMes infoData ⟨[], [], [], 0, 0, 0⟩ (cargaInv_init hojasMes)
  obtain ⟨hH, hD, hC⟩ := hinv
  refine ⟨?_, ⟨hD, hC⟩, ?_, ?_⟩
  · intro hoja F hF
    have hh := hH hoja
    unfold cargaInvHoja at hh
    rw [hF] at hh
    cases hE : (ejecutarCargaPagos nowYear feriados fuel infoData headerPro
        dataPro hojasMes).existing.lookup hoja with
    | none =>
      rw [hE] at hh
      exact absurd hh (by simp)
    | some S =>
      rw [hE] at hh
      obtain ⟨_, hnd, hdisj⟩ := hh
      exact ⟨hnd, hdisj⟩
  · intro st row dni iPro f hA hdup
    unfold pasoCarga
    rw [hA]
    dsimp only
    unfold pasoCargaReady
    dsimp only
    rw [if_pos hdup]
  · intro t R hR
    exact aplicarEscrituras_extends _ hojasMes t R hR
